import Mathlib

/-!
Verification of the SWAPI crawl-and-hydrate notebook (src/SWAPI.ipynb).

The notebook builds a property graph in Neo4j from the SWAPI REST API.  Its
core is a set of parameterized Cypher upsert queries (CREATE_PERSON_QUERY,
CREATE_MOVIE_QUERY, CREATE_PLANET_QUERY, CREATE_SPECIES_QUERY,
CREATE_STARSHIP_QUERY, CREATE_VEHICLE_QUERY), a selection query
(FIND_NEW_ENTITY_QUERY) that picks one `Placeholder`-labelled node, and a
crawl loop (cell-35) that repeatedly selects a placeholder, fetches its
document and runs the matching upsert query until no placeholders remain.

The embedding models the Neo4j store as lists of nodes and relationships.
Each Cypher query is translated clause by clause into a list of primitive
store operations (`Op`): `MERGE` of a node, `SET` of scalar properties,
`REMOVE :Placeholder`, and `CREATE UNIQUE` of a relationship; an `UNWIND`
over a list becomes one merge-and-link pair of operations per element, in
list order, exactly as Cypher processes the rows.

Three aspects of Cypher semantics are modelled explicitly because the
claims depend on them:

* `MERGE (n:L {url: {p}})` with a null parameter raises an error, aborting
  the whole (auto-commit) transaction; this is modelled by the query
  returning `none` (the caller keeps the unmodified store).
* `UNWIND xs` over an empty list produces zero rows, so every clause after
  it operates on zero rows and has no effect; this is modelled by the
  query's operation list ending at the first empty url list.
* Cypher `split(str, ",")` splits on every comma, keeps empty fragments and
  does not trim whitespace; `splitComma` below reproduces this.  Its result
  is never the empty list (even for the empty string it is `[""]`), so the
  `UNWIND`s over split results always have at least one row.
-/

namespace SWAPI

/-- Node labels occurring in the notebook's queries: the six fetched entity
kinds plus the auxiliary tag kinds extracted from scalar fields. -/
inductive Kind
  | Film | Person | Planet | Species | Starship | Vehicle
  | Director | Producer | Manufacturer | Climate | Terrain
  | StarshipClass | VehicleClass
deriving DecidableEq, Repr

/-- Relationship types created by the notebook's queries. -/
inductive RelType
  | APPEARS_IN | PILOTS | IS_FROM | IS_SPECIES | TAKES_PLACE_ON
  | DIRECTED_BY | PRODUCED_BY | HAS_CLIMATE | HAS_TERRAIN
  | MANUFACTURED_BY | IS_CLASS
deriving DecidableEq, Repr

/-- Property values: SWAPI scalars are strings except `episode_id`, which the
film query converts with `toInt`. -/
inductive Value
  | str (s : String)
  | int (n : Int)
deriving DecidableEq, Repr

/-- A graph node.  `kind` is the primary label, `key` the merge key (the
`url` property for fetched kinds, the `name`/`type` property for tag kinds)
and `placeholder` records whether the node currently carries the extra
`Placeholder` label. -/
structure Node where
  kind : Kind
  key : String
  placeholder : Bool
  props : List (String × Value)
deriving DecidableEq, Repr

/-- A directed typed relationship; endpoints are identified by label and
merge key, matching how every `CREATE UNIQUE` pattern in the notebook binds
its endpoints. -/
structure Rel where
  srcKind : Kind
  srcKey : String
  rtype : RelType
  dstKind : Kind
  dstKey : String
deriving DecidableEq, Repr

/-- The graph store: the notebook's Neo4j database. -/
structure Store where
  nodes : List Node
  rels : List Rel
deriving DecidableEq, Repr

def emptyStore : Store := ⟨[], []⟩

def nodeMatches (n : Node) (k : Kind) (key : String) : Bool :=
  n.kind == k && n.key == key

def nodePresent (s : Store) (k : Kind) (key : String) : Bool :=
  s.nodes.any (fun n => nodeMatches n k key)

/-- `MERGE (n:k {key})`: match the node by label and merge key, creating it
if absent; `ph` is true when the query says `ON CREATE SET n:Placeholder`. -/
def mergeNode (k : Kind) (key : String) (ph : Bool) (s : Store) : Store :=
  if nodePresent s k key then s
  else { s with nodes := s.nodes ++ [⟨k, key, ph, []⟩] }

/-- `SET n.f = v` for one property: overwrite in place if present, else add. -/
def setProp (ps : List (String × Value)) (f : String) (v : Value) :
    List (String × Value) :=
  if ps.any (fun e => e.1 == f) then
    ps.map (fun e => if e.1 == f then (f, v) else e)
  else ps ++ [(f, v)]

/-- Apply a `SET` clause's assignments in order. -/
def writeProps (ps : List (String × Value)) (kvs : List (String × Value)) :
    List (String × Value) :=
  kvs.foldl (fun acc kv => setProp acc kv.1 kv.2) ps

/-- `SET` on the node matched by label and merge key. -/
def setProps (k : Kind) (key : String) (kvs : List (String × Value))
    (s : Store) : Store :=
  { s with nodes := s.nodes.map (fun n =>
      if nodeMatches n k key then { n with props := writeProps n.props kvs }
      else n) }

/-- `REMOVE n:Placeholder` on the node matched by label and merge key. -/
def removePlaceholder (k : Kind) (key : String) (s : Store) : Store :=
  { s with nodes := s.nodes.map (fun n =>
      if nodeMatches n k key then { n with placeholder := false } else n) }

/-- `CREATE UNIQUE` on a fully-bound relationship pattern: create the edge
unless the identical (source, type, target) triple already exists. -/
def ensureRel (r : Rel) (s : Store) : Store :=
  if s.rels.contains r then s else { s with rels := s.rels ++ [r] }

/-- One primitive Cypher write clause. -/
inductive Op
  | merge (k : Kind) (key : String) (ph : Bool)
  | set (k : Kind) (key : String) (kvs : List (String × Value))
  | removePh (k : Kind) (key : String)
  | rel (r : Rel)
deriving DecidableEq, Repr

def applyOp : Op → Store → Store
  | .merge k key ph, s => mergeNode k key ph s
  | .set k key kvs, s => setProps k key kvs s
  | .removePh k key, s => removePlaceholder k key s
  | .rel r, s => ensureRel r s

/-- Run a query's write clauses in order. -/
def applyOps (ops : List Op) (s : Store) : Store :=
  ops.foldl (fun st o => applyOp o st) s

/-- `UNWIND {keys} AS x MERGE (t:tk {x}) CREATE UNIQUE <pattern>`: one
merge-and-link pair per row; `ph` is true when the `MERGE` carries
`ON CREATE SET :Placeholder`. -/
def linkOps (tk : Kind) (ph : Bool) (mk : String → Rel) (keys : List String) :
    List Op :=
  keys.flatMap (fun key => [.merge tk key ph, .rel (mk key)])

/-- An `UNWIND` block whose `MERGE` has `ON CREATE SET :Placeholder`. -/
def stubOps (tk : Kind) (mk : String → Rel) (keys : List String) : List Op :=
  linkOps tk true mk keys

/-- An `UNWIND` block over tag nodes, whose `MERGE` has no
`ON CREATE SET :Placeholder`. -/
def tagOps (tk : Kind) (mk : String → Rel) (keys : List String) : List Op :=
  linkOps tk false mk keys

/-- Cypher `split(s, ",")` on character lists: split at every comma, keep
empty fragments, no trimming. -/
def splitCommaChars : List Char → List (List Char)
  | [] => [[]]
  | c :: cs =>
    if c = ',' then [] :: splitCommaChars cs
    else
      match splitCommaChars cs with
      | [] => [[c]]
      | w :: ws => (c :: w) :: ws

/-- Cypher `split(s, ",")`. -/
def splitComma (s : String) : List String :=
  (splitCommaChars s.data).map List.asString

/-- JSON document for a `people/` resource (cell-7); the query reads every
field except `films`. -/
structure PersonDoc where
  url : String
  birth_year : String
  created : String
  edited : String
  eye_color : String
  gender : String
  hair_color : String
  height : String
  mass : String
  name : String
  skin_color : String
  homeworld : Option String
  films : List String
  species : List String
  starships : List String
  vehicles : List String
deriving DecidableEq, Repr

/-- JSON document for a `films/` resource (cell-12). -/
structure FilmDoc where
  url : String
  created : String
  edited : String
  episode_id : Int
  opening_crawl : String
  release_date : String
  title : String
  director : String
  producer : String
  characters : List String
  planets : List String
  species : List String
  starships : List String
  vehicles : List String
deriving DecidableEq, Repr

/-- JSON document for a `planets/` resource (cell-15); the query reads every
field except `residents` and `films`. -/
structure PlanetDoc where
  url : String
  created : String
  diameter : String
  edited : String
  gravity : String
  name : String
  orbital_period : String
  population : String
  rotation_period : String
  surface_water : String
  climate : String
  terrain : String
  residents : List String
  films : List String
deriving DecidableEq, Repr

/-- JSON document for a `species/` resource (cell-18); the query reads only
the scalar fields, ignoring `homeworld`, `people` and `films`. -/
structure SpeciesDoc where
  url : String
  name : String
  language : String
  average_height : String
  average_lifespan : String
  classification : String
  created : String
  designation : String
  eye_colors : String
  hair_colors : String
  skin_colors : String
  homeworld : Option String
  people : List String
  films : List String
deriving DecidableEq, Repr

/-- JSON document for a `starships/` resource (cell-21); the query ignores
`cargo_capacity`, `pilots` and `films`. -/
structure StarshipDoc where
  url : String
  MGLT : String
  cargo_capacity : String
  consumables : String
  cost_in_credits : String
  created : String
  crew : String
  edited : String
  hyperdrive_rating : String
  length : String
  max_atmosphering_speed : String
  model : String
  name : String
  passengers : String
  manufacturer : String
  starship_class : String
  pilots : List String
  films : List String
deriving DecidableEq, Repr

/-- JSON document for a `vehicles/` resource (cell-24); the query ignores
`pilots` and `films`. -/
structure VehicleDoc where
  url : String
  cargo_capacity : String
  consumables : String
  cost_in_credits : String
  created : String
  crew : String
  edited : String
  length : String
  max_atmosphering_speed : String
  model : String
  name : String
  passengers : String
  manufacturer : String
  vehicle_class : String
  pilots : List String
  films : List String
deriving DecidableEq, Repr

/-- The `SET` clause of CREATE_PERSON_QUERY. -/
def personProps (d : PersonDoc) : List (String × Value) :=
  [("birth_year", .str d.birth_year), ("created", .str d.created),
   ("edited", .str d.edited), ("eye_color", .str d.eye_color),
   ("gender", .str d.gender), ("hair_color", .str d.hair_color),
   ("height", .str d.height), ("mass", .str d.mass),
   ("name", .str d.name), ("skin_color", .str d.skin_color)]

/-- The write clauses of CREATE_PERSON_QUERY, given the non-null homeworld
url: merge the person, set its scalar properties, remove its Placeholder
label, stub and link the homeworld, then the species, starships and
vehicles lists.  An empty `species`, `starships` or `vehicles` list makes
its `UNWIND` produce zero rows, so all later clauses do nothing. -/
def personOps (d : PersonDoc) (hw : String) : List Op :=
  [.merge .Person d.url false, .set .Person d.url (personProps d),
   .removePh .Person d.url,
   .merge .Planet hw true,
   .rel ⟨.Person, d.url, .IS_FROM, .Planet, hw⟩]
  ++ (if d.species.isEmpty then [] else
    stubOps .Species (fun k => ⟨.Person, d.url, .IS_SPECIES, .Species, k⟩)
      d.species
    ++ (if d.starships.isEmpty then [] else
      stubOps .Starship (fun k => ⟨.Person, d.url, .PILOTS, .Starship, k⟩)
        d.starships
      ++ (if d.vehicles.isEmpty then [] else
        stubOps .Vehicle (fun k => ⟨.Person, d.url, .PILOTS, .Vehicle, k⟩)
          d.vehicles)))

/-- CREATE_PERSON_QUERY (cell-8).  A null `homeworld` makes the
`MERGE (home:Planet {url: {homeworld}})` clause raise, rolling back the
whole transaction (`none`). -/
def CREATE_PERSON_QUERY (d : PersonDoc) (s : Store) : Option Store :=
  match d.homeworld with
  | none => none
  | some hw => some (applyOps (personOps d hw) s)

/-- The `SET` clause of CREATE_MOVIE_QUERY; `episode_id` goes through
`toInt`. -/
def filmProps (d : FilmDoc) : List (String × Value) :=
  [("created", .str d.created), ("edited", .str d.edited),
   ("episode_id", .int d.episode_id),
   ("opening_crawl", .str d.opening_crawl),
   ("release_date", .str d.release_date), ("title", .str d.title)]

/-- The write clauses of CREATE_MOVIE_QUERY: merge the film and set its
properties (this query has no `REMOVE f:Placeholder`), split `director`
and `producer` on commas into tag nodes, then stub and link characters,
planets, species, starships and vehicles.  The split lists are never
empty; each of the five url lists, if empty, halts the rest via its
zero-row `UNWIND`. -/
def filmOps (d : FilmDoc) : List Op :=
  [.merge .Film d.url false, .set .Film d.url (filmProps d)]
  ++ tagOps .Director (fun k => ⟨.Film, d.url, .DIRECTED_BY, .Director, k⟩)
      (splitComma d.director)
  ++ tagOps .Producer (fun k => ⟨.Film, d.url, .PRODUCED_BY, .Producer, k⟩)
      (splitComma d.producer)
  ++ (if d.characters.isEmpty then [] else
    stubOps .Person (fun k => ⟨.Person, k, .APPEARS_IN, .Film, d.url⟩)
      d.characters
    ++ (if d.planets.isEmpty then [] else
      stubOps .Planet (fun k => ⟨.Film, d.url, .TAKES_PLACE_ON, .Planet, k⟩)
        d.planets
      ++ (if d.species.isEmpty then [] else
        stubOps .Species (fun k => ⟨.Species, k, .APPEARS_IN, .Film, d.url⟩)
          d.species
        ++ (if d.starships.isEmpty then [] else
          stubOps .Starship
            (fun k => ⟨.Starship, k, .APPEARS_IN, .Film, d.url⟩) d.starships
          ++ (if d.vehicles.isEmpty then [] else
            stubOps .Vehicle
              (fun k => ⟨.Vehicle, k, .APPEARS_IN, .Film, d.url⟩)
              d.vehicles)))))

/-- CREATE_MOVIE_QUERY (cell-13); no parameter of this query can be null in
a film document, so the query itself never raises. -/
def CREATE_MOVIE_QUERY (d : FilmDoc) (s : Store) : Option Store :=
  some (applyOps (filmOps d) s)

/-- The `SET` clause of CREATE_PLANET_QUERY. -/
def planetProps (d : PlanetDoc) : List (String × Value) :=
  [("created", .str d.created), ("diameter", .str d.diameter),
   ("edited", .str d.edited), ("gravity", .str d.gravity),
   ("name", .str d.name), ("orbital_period", .str d.orbital_period),
   ("population", .str d.population),
   ("rotation_period", .str d.rotation_period),
   ("surface_water", .str d.surface_water)]

/-- The write clauses of CREATE_PLANET_QUERY: merge the planet, set
properties, remove its Placeholder label, then split `climate` and
`terrain` into tag nodes.  `residents` and `films` are not referenced by
the query at all. -/
def planetOps (d : PlanetDoc) : List Op :=
  [.merge .Planet d.url false, .set .Planet d.url (planetProps d),
   .removePh .Planet d.url]
  ++ tagOps .Climate (fun k => ⟨.Planet, d.url, .HAS_CLIMATE, .Climate, k⟩)
      (splitComma d.climate)
  ++ tagOps .Terrain (fun k => ⟨.Planet, d.url, .HAS_TERRAIN, .Terrain, k⟩)
      (splitComma d.terrain)

/-- CREATE_PLANET_QUERY (cell-16). -/
def CREATE_PLANET_QUERY (d : PlanetDoc) (s : Store) : Option Store :=
  some (applyOps (planetOps d) s)

/-- The `SET` clause of CREATE_SPECIES_QUERY. -/
def speciesProps (d : SpeciesDoc) : List (String × Value) :=
  [("name", .str d.name), ("language", .str d.language),
   ("average_height", .str d.average_height),
   ("average_lifespan", .str d.average_lifespan),
   ("classification", .str d.classification),
   ("created", .str d.created), ("designation", .str d.designation),
   ("eye_colors", .str d.eye_colors),
   ("hair_colors", .str d.hair_colors),
   ("skin_colors", .str d.skin_colors)]

/-- The write clauses of CREATE_SPECIES_QUERY: merge the species, set its
scalar properties and remove its Placeholder label.  The query creates no
relationships and never reads `homeworld`, `people` or `films`. -/
def speciesOps (d : SpeciesDoc) : List Op :=
  [.merge .Species d.url false, .set .Species d.url (speciesProps d),
   .removePh .Species d.url]

/-- CREATE_SPECIES_QUERY (cell-19). -/
def CREATE_SPECIES_QUERY (d : SpeciesDoc) (s : Store) : Option Store :=
  some (applyOps (speciesOps d) s)

/-- The `SET` clause of CREATE_STARSHIP_QUERY (note: no `cargo_capacity`). -/
def starshipProps (d : StarshipDoc) : List (String × Value) :=
  [("MGLT", .str d.MGLT), ("consumables", .str d.consumables),
   ("cost_in_credits", .str d.cost_in_credits),
   ("created", .str d.created), ("crew", .str d.crew),
   ("edited", .str d.edited),
   ("hyperdrive_rating", .str d.hyperdrive_rating),
   ("length", .str d.length),
   ("max_atmosphering_speed", .str d.max_atmosphering_speed),
   ("model", .str d.model), ("name", .str d.name),
   ("passengers", .str d.passengers)]

/-- The write clauses of CREATE_STARSHIP_QUERY: merge the starship, set
properties, remove its Placeholder label, then link the whole
`manufacturer` string (not split) and the `starship_class` string as tag
nodes. -/
def starshipOps (d : StarshipDoc) : List Op :=
  [.merge .Starship d.url false, .set .Starship d.url (starshipProps d),
   .removePh .Starship d.url]
  ++ tagOps .Manufacturer
      (fun k => ⟨.Starship, d.url, .MANUFACTURED_BY, .Manufacturer, k⟩)
      [d.manufacturer]
  ++ tagOps .StarshipClass
      (fun k => ⟨.Starship, d.url, .IS_CLASS, .StarshipClass, k⟩)
      [d.starship_class]

/-- CREATE_STARSHIP_QUERY (cell-22). -/
def CREATE_STARSHIP_QUERY (d : StarshipDoc) (s : Store) : Option Store :=
  some (applyOps (starshipOps d) s)

/-- The `SET` clause of CREATE_VEHICLE_QUERY. -/
def vehicleProps (d : VehicleDoc) : List (String × Value) :=
  [("cargo_capacity", .str d.cargo_capacity),
   ("consumables", .str d.consumables),
   ("cost_in_credits", .str d.cost_in_credits),
   ("created", .str d.created), ("crew", .str d.crew),
   ("edited", .str d.edited), ("length", .str d.length),
   ("max_atmosphering_speed", .str d.max_atmosphering_speed),
   ("model", .str d.model), ("name", .str d.name),
   ("passengers", .str d.passengers)]

/-- The write clauses of CREATE_VEHICLE_QUERY: like the starship query with
a `VehicleClass` tag. -/
def vehicleOps (d : VehicleDoc) : List Op :=
  [.merge .Vehicle d.url false, .set .Vehicle d.url (vehicleProps d),
   .removePh .Vehicle d.url]
  ++ tagOps .Manufacturer
      (fun k => ⟨.Vehicle, d.url, .MANUFACTURED_BY, .Manufacturer, k⟩)
      [d.manufacturer]
  ++ tagOps .VehicleClass
      (fun k => ⟨.Vehicle, d.url, .IS_CLASS, .VehicleClass, k⟩)
      [d.vehicle_class]

/-- CREATE_VEHICLE_QUERY (cell-25). -/
def CREATE_VEHICLE_QUERY (d : VehicleDoc) (s : Store) : Option Store :=
  some (applyOps (vehicleOps d) s)

/-- A fetched JSON document together with its kind. -/
inductive Doc
  | person (d : PersonDoc)
  | film (d : FilmDoc)
  | planet (d : PlanetDoc)
  | species (d : SpeciesDoc)
  | starship (d : StarshipDoc)
  | vehicle (d : VehicleDoc)
deriving DecidableEq, Repr

/-- Running the upsert query that matches the document's kind. -/
def upsert : Doc → Store → Option Store
  | .person d, s => CREATE_PERSON_QUERY d s
  | .film d, s => CREATE_MOVIE_QUERY d s
  | .planet d, s => CREATE_PLANET_QUERY d s
  | .species d, s => CREATE_SPECIES_QUERY d s
  | .starship d, s => CREATE_STARSHIP_QUERY d s
  | .vehicle d, s => CREATE_VEHICLE_QUERY d s

/-- The operation list of a document's upsert query, or `none` when the
query raises before writing (a person with a null homeworld). -/
def docOps : Doc → Option (List Op)
  | .person d => d.homeworld.map (personOps d)
  | .film d => some (filmOps d)
  | .planet d => some (planetOps d)
  | .species d => some (speciesOps d)
  | .starship d => some (starshipOps d)
  | .vehicle d => some (vehicleOps d)

/-- Upserting a sequence of documents, stopping at the first query error. -/
def upsertAll : List Doc → Store → Option Store
  | [], s => some s
  | d :: ds, s =>
    match upsert d s with
    | none => none
    | some s2 => upsertAll ds s2

/-- The Placeholder-labelled nodes of the store, in store order. -/
def placeholders (s : Store) : List Node :=
  s.nodes.filter (fun n => n.placeholder)

/-- FIND_NEW_ENTITY_QUERY (cell-31): pick one Placeholder node and return
its url together with its non-Placeholder label.  The Cypher query orders
by `rand()`; the model determinizes the arbitrary pick to the first
placeholder in store order (the spec leaves selection order unspecified
and no claim depends on it). -/
def FIND_NEW_ENTITY_QUERY (s : Store) : Option (String × Kind) :=
  match placeholders s with
  | [] => none
  | p :: _ => some (p.key, p.kind)

/-- The five queries `getQueryForLabel` (cell-33) can return. -/
inductive QueryTag
  | vehicleQ | speciesQ | personQ | starshipQ | planetQ
deriving DecidableEq, Repr

/-- getQueryForLabel (cell-33): map a label to its upsert query; any other
label raises `ValueError`, modelled as `none`. -/
def getQueryForLabel : Kind → Option QueryTag
  | .Vehicle => some .vehicleQ
  | .Species => some .speciesQ
  | .Person => some .personQ
  | .Starship => some .starshipQ
  | .Planet => some .planetQ
  | _ => none

/-- Run the selected query on the fetched JSON document.  If the document's
shape does not match the query's parameters the Cypher call raises a
missing-parameter error, modelled as `none`. -/
def runQuery : QueryTag → Doc → Store → Option Store
  | .personQ, .person d, s => CREATE_PERSON_QUERY d s
  | .speciesQ, .species d, s => CREATE_SPECIES_QUERY d s
  | .planetQ, .planet d, s => CREATE_PLANET_QUERY d s
  | .starshipQ, .starship d, s => CREATE_STARSHIP_QUERY d s
  | .vehicleQ, .vehicle d, s => CREATE_VEHICLE_QUERY d s
  | _, _, _ => none

/-- Result of the crawl loop (cell-35).  `Crashed` records the store state
at which an unhandled exception (failed fetch, `ValueError` from
`getQueryForLabel`, or a Cypher error) escaped the loop; `Fuel` is the
artificial out-of-fuel case of the model. -/
inductive Outcome
  | Done (s : Store)
  | Crashed (s : Store)
  | Fuel (s : Store)
deriving DecidableEq, Repr

/-- The crawl loop of cell-35: while FIND_NEW_ENTITY_QUERY returns a row,
fetch the url with `requests.get` (modelled by the `fetch` oracle; `none`
is a raised request/JSON error) and run `getQueryForLabel(label)` on the
result.  No step is guarded by any error handling, so the first failure
aborts the whole loop. -/
def crawl (fetch : Kind → String → Option Doc) : Nat → Store → Outcome
  | 0, s => .Fuel s
  | Nat.succ fuel, s =>
    match placeholders s with
    | [] => .Done s
    | p :: _ =>
      match fetch p.kind p.key with
      | none => .Crashed s
      | some d =>
        match getQueryForLabel p.kind with
        | none => .Crashed s
        | some q =>
          match runQuery q d s with
          | none => .Crashed s
          | some s2 => crawl fetch fuel s2

/-! ### Definitions used by the verification layer: store observations,
clause-list predicates, and the concrete witness documents and stores. -/

/-- The node with this label and merge key exists. -/
def PresentP (k : Kind) (key : String) (s : Store) : Prop :=
  nodePresent s k key = true

/-- Every node with this label and merge key has lost (or never had) the
Placeholder label. -/
def NoPhP (k : Kind) (key : String) (s : Store) : Prop :=
  ∀ n ∈ s.nodes, nodeMatches n k key = true → n.placeholder = false

/-- Re-applying the `SET` assignments to the matched node changes nothing. -/
def PropsDoneP (k : Kind) (key : String) (kvs : List (String × Value))
    (s : Store) : Prop :=
  ∀ n ∈ s.nodes, nodeMatches n k key = true → writeProps n.props kvs = n.props

/-- The entity exists and does not carry the Placeholder label: the
hydrated state of the spec. -/
def HydratedP (k : Kind) (key : String) (s : Store) : Prop :=
  ∃ n ∈ s.nodes, nodeMatches n k key = true ∧ n.placeholder = false

/-- The property list already holds `(f, v)` and nothing else under key
`f`; re-running `SET n.f = v` is then the identity. -/
def PropAt (f : String) (v : Value) (ps : List (String × Value)) : Prop :=
  (∀ e ∈ ps, e.1 = f → e = (f, v)) ∧ ∃ e ∈ ps, e.1 = f

/-- The postcondition each clause establishes; a clause whose postcondition
already holds is the identity on the store. -/
def OpPost : Op → Store → Prop
  | .merge k key _, s => PresentP k key s
  | .set k key kvs, s => PropsDoneP k key kvs s
  | .removePh k key, s => NoPhP k key s
  | .rel r, s => r ∈ s.rels

/-- The clause does not write properties on this key. -/
def NotSetOn (k : Kind) (key : String) : Op → Prop
  | .set k2 key2 _ => ¬(k2 = k ∧ key2 = key)
  | _ => True

/-- Well-formedness of a clause list, relative to the keys already known to
be present: every `SET` and `REMOVE` hits a key merged earlier, the `SET`
assignments have distinct field names, and no key is `SET` twice.  Every
query of the notebook satisfies this. -/
def WFp : List Op → List (Kind × String) → Prop
  | [], _ => True
  | .merge k key _ :: rest, pres => WFp rest ((k, key) :: pres)
  | .set k key kvs :: rest, pres =>
      (k, key) ∈ pres ∧ (kvs.map Prod.fst).Nodup ∧
      (∀ o ∈ rest, NotSetOn k key o) ∧ WFp rest pres
  | .removePh k key :: rest, pres => (k, key) ∈ pres ∧ WFp rest pres
  | .rel _ :: rest, pres => WFp rest pres

/-- A clause that is a merge or a relationship creation. -/
def PlainOp : Op → Prop
  | .set _ _ _ => False
  | .removePh _ _ => False
  | _ => True

/-- A clause that creates no relationship. -/
def NoRelOp : Op → Prop
  | .rel _ => False
  | _ => True

/-- The auxiliary tag kinds: labels extracted from scalar field values. -/
def isTag : Kind → Bool
  | .Director | .Producer | .Manufacturer | .Climate | .Terrain
  | .StarshipClass | .VehicleClass => true
  | _ => false

/-- The kinds the crawl loop can fetch and upsert: exactly the labels
`getQueryForLabel` accepts. -/
def fetchable : Kind → Bool
  | .Person | .Planet | .Species | .Starship | .Vehicle => true
  | _ => false

/-- The label and merge key of the entity a document hydrates. -/
def docSubject : Doc → Kind × String
  | .person d => (.Person, d.url)
  | .film d => (.Film, d.url)
  | .planet d => (.Planet, d.url)
  | .species d => (.Species, d.url)
  | .starship d => (.Starship, d.url)
  | .vehicle d => (.Vehicle, d.url)

/-- Every stub target a document's query could merge with
`ON CREATE SET :Placeholder`: the url reference fields with their
schema-declared target kinds. -/
def docStubRefs : Doc → List (Kind × String)
  | .person d =>
    (match d.homeworld with
      | none => []
      | some hw => [((.Planet : Kind), hw)])
    ++ d.species.map (fun v => ((.Species : Kind), v))
    ++ d.starships.map (fun v => ((.Starship : Kind), v))
    ++ d.vehicles.map (fun v => ((.Vehicle : Kind), v))
  | .film d =>
    d.characters.map (fun v => ((.Person : Kind), v))
    ++ d.planets.map (fun v => ((.Planet : Kind), v))
    ++ d.species.map (fun v => ((.Species : Kind), v))
    ++ d.starships.map (fun v => ((.Starship : Kind), v))
    ++ d.vehicles.map (fun v => ((.Vehicle : Kind), v))
  | .planet _ => []
  | .species _ => []
  | .starship _ => []
  | .vehicle _ => []

/-- Every tag entity a document's query merges (without a Placeholder
label), keyed by the scalar value itself. -/
def docTagRefs : Doc → List (Kind × String)
  | .person _ => []
  | .film d =>
    (splitComma d.director).map (fun v => ((.Director : Kind), v))
    ++ (splitComma d.producer).map (fun v => ((.Producer : Kind), v))
  | .planet d =>
    (splitComma d.climate).map (fun v => ((.Climate : Kind), v))
    ++ (splitComma d.terrain).map (fun v => ((.Terrain : Kind), v))
  | .species _ => []
  | .starship d =>
    [(.Manufacturer, d.manufacturer), (.StarshipClass, d.starship_class)]
  | .vehicle d =>
    [(.Manufacturer, d.manufacturer), (.VehicleClass, d.vehicle_class)]

/-- Every relationship a document's query asserts with `CREATE UNIQUE`:
one per target key of each reference field, plus the tag links. -/
def docRels : Doc → List Rel
  | .person d =>
    (match d.homeworld with
      | none => []
      | some hw => [(⟨.Person, d.url, .IS_FROM, .Planet, hw⟩ : Rel)])
    ++ d.species.map (fun v => (⟨.Person, d.url, .IS_SPECIES, .Species, v⟩ : Rel))
    ++ d.starships.map (fun v => (⟨.Person, d.url, .PILOTS, .Starship, v⟩ : Rel))
    ++ d.vehicles.map (fun v => (⟨.Person, d.url, .PILOTS, .Vehicle, v⟩ : Rel))
  | .film d =>
    (splitComma d.director).map
      (fun v => (⟨.Film, d.url, .DIRECTED_BY, .Director, v⟩ : Rel))
    ++ (splitComma d.producer).map
      (fun v => (⟨.Film, d.url, .PRODUCED_BY, .Producer, v⟩ : Rel))
    ++ d.characters.map (fun v => (⟨.Person, v, .APPEARS_IN, .Film, d.url⟩ : Rel))
    ++ d.planets.map (fun v => (⟨.Film, d.url, .TAKES_PLACE_ON, .Planet, v⟩ : Rel))
    ++ d.species.map (fun v => (⟨.Species, v, .APPEARS_IN, .Film, d.url⟩ : Rel))
    ++ d.starships.map (fun v => (⟨.Starship, v, .APPEARS_IN, .Film, d.url⟩ : Rel))
    ++ d.vehicles.map (fun v => (⟨.Vehicle, v, .APPEARS_IN, .Film, d.url⟩ : Rel))
  | .planet d =>
    (splitComma d.climate).map
      (fun v => (⟨.Planet, d.url, .HAS_CLIMATE, .Climate, v⟩ : Rel))
    ++ (splitComma d.terrain).map
      (fun v => (⟨.Planet, d.url, .HAS_TERRAIN, .Terrain, v⟩ : Rel))
  | .species _ => []
  | .starship d =>
    [⟨.Starship, d.url, .MANUFACTURED_BY, .Manufacturer, d.manufacturer⟩,
     ⟨.Starship, d.url, .IS_CLASS, .StarshipClass, d.starship_class⟩]
  | .vehicle d =>
    [⟨.Vehicle, d.url, .MANUFACTURED_BY, .Manufacturer, d.manufacturer⟩,
     ⟨.Vehicle, d.url, .IS_CLASS, .VehicleClass, d.vehicle_class⟩]

/-- No url-list field of the document is empty, so no `UNWIND` of the
query runs on zero rows and every clause of the query executes. -/
def docListsNonempty : Doc → Prop
  | .person d => d.species.isEmpty = false ∧ d.starships.isEmpty = false ∧
      d.vehicles.isEmpty = false
  | .film d => d.characters.isEmpty = false ∧ d.planets.isEmpty = false ∧
      d.species.isEmpty = false ∧ d.starships.isEmpty = false ∧
      d.vehicles.isEmpty = false
  | _ => True

/-- Every relationship's endpoints exist as entities of the store. -/
def RelEndpointsOK (s : Store) : Prop :=
  ∀ r ∈ s.rels, nodePresent s r.srcKind r.srcKey = true ∧
    nodePresent s r.dstKind r.dstKey = true

/-- The hydrated entities of the fetchable kinds, as a finite set of
(kind, key) pairs: the crawl loop's progress measure. -/
def hydratedKeys (s : Store) : Finset (Kind × String) :=
  ((s.nodes.filter (fun n => fetchable n.kind && !n.placeholder)).map
    (fun n => (n.kind, n.key))).toFinset

/-- The store invariant of the crawl: every fetchable-kind entity's key
lies in the finite key universe `U`, every placeholder has a fetchable
kind, and no two nodes share a label and merge key (the uniqueness
constraints of cell-5). -/
def StoreOK (U : Finset (Kind × String)) (s : Store) : Prop :=
  (∀ n ∈ s.nodes, fetchable n.kind = true → (n.kind, n.key) ∈ U) ∧
  (∀ n ∈ s.nodes, n.placeholder = true → fetchable n.kind = true) ∧
  s.nodes.Pairwise (fun a b => ¬(a.kind = b.kind ∧ a.key = b.key))

/-- The document does not make its query raise: only a person document
with a null homeworld can. -/
def homewOK : Doc → Prop
  | .person d => d.homeworld ≠ none
  | _ => True

/-- The fetch oracle behaves like SWAPI on the universe `U`: every
fetchable key of `U` yields a document of that key and kind whose
references stay within `U` and whose query does not raise. -/
def GoodFetch (U : Finset (Kind × String))
    (fetch : Kind → String → Option Doc) : Prop :=
  ∀ (k : Kind) (key : String), fetchable k = true → (k, key) ∈ U →
    ∃ d, fetch k key = some d ∧ docSubject d = (k, key) ∧
      (∀ x ∈ docStubRefs d, x ∈ U) ∧ homewOK d

/-- The store inside a crawl outcome. -/
def outcomeStore : Outcome → Store
  | .Done s => s
  | .Crashed s => s
  | .Fuel s => s

/-- The Tatooine planet document of cell-15 (lists elided: the planet
query ignores them). -/
def wPlanet : PlanetDoc :=
  { url := "planets/1", created := "c", diameter := "10465", edited := "e",
    gravity := "1 standard", name := "Tatooine", orbital_period := "304",
    population := "200000", rotation_period := "23", surface_water := "1",
    climate := "arid", terrain := "desert", residents := [], films := [] }

/-- A fetch oracle serving exactly the planet `planets/1`. -/
def wFetchC6 : Kind → String → Option Doc := fun k key =>
  if k = .Planet ∧ key = "planets/1" then some (.planet wPlanet) else none

/-- A store with a single Planet placeholder, as left by a film upsert. -/
def wStoreC6 : Store := ⟨[⟨.Planet, "planets/1", true, []⟩], []⟩

/-- The key universe of the witness crawl. -/
def wUC6 : Finset (Kind × String) := {((.Planet : Kind), "planets/1")}

/-- The store in which the witness crawl ends. -/
def wDoneC6 : Store := outcomeStore (crawl wFetchC6 2 wStoreC6)

/-- A store holding one unhydrated Person stub: the crawl loop will select
it. -/
def wCrashStore : Store := ⟨[⟨.Person, "people/4", true, []⟩], []⟩

/-- The entity with this label and merge key exists and still carries the
Placeholder label: an unhydrated stub. -/
def stubB (s : Store) (k : Kind) (key : String) : Bool :=
  s.nodes.any (fun n => nodeMatches n k key && n.placeholder)

/-- The entity with this label and merge key exists without the Placeholder
label: it is hydrated. -/
def hydratedB (s : Store) (k : Kind) (key : String) : Bool :=
  s.nodes.any (fun n => nodeMatches n k key && !n.placeholder)

/-- The notebook's sample person document (cell-7): Luke Skywalker,
`people/1`, homeworld `planets/1`, starships 12 and 22, species 1,
vehicles 14 and 30. -/
def wPerson : PersonDoc :=
  { url := "people/1", birth_year := "19BBY", created := "c", edited := "e",
    eye_color := "blue", gender := "male", hair_color := "blond",
    height := "172", mass := "77", name := "Luke Skywalker",
    skin_color := "fair", homeworld := some "planets/1",
    films := ["films/1"], species := ["species/1"],
    starships := ["starships/12", "starships/22"],
    vehicles := ["vehicles/14", "vehicles/30"] }

def wDocC1 : Doc := .person wPerson

def wStoreC1 : Store := (upsert wDocC1 emptyStore).getD emptyStore

/-- A person document whose homeworld is null, like the `homeworld` of the
Droid species in cell-18; SWAPI can serve such documents. -/
def wPersonNull : PersonDoc := { wPerson with homeworld := none }

/-- A person document whose species list is empty but whose starships list
is not: the empty `UNWIND {species}` halts the rest of the query. -/
def wPersonC7 : PersonDoc :=
  { wPerson with
    species := []
    starships := ["starships/12"]
    vehicles := ["vehicles/14"] }

def wStoreC7 : Store :=
  (CREATE_PERSON_QUERY wPersonC7 emptyStore).getD emptyStore

/-- The Droid species document of cell-18: a null homeworld. -/
def wSpecies : SpeciesDoc :=
  { url := "species/2", name := "Droid", language := "n/a",
    average_height := "n/a", average_lifespan := "indefinite",
    classification := "artificial", created := "c", designation := "sentient",
    eye_colors := "n/a", hair_colors := "n/a", skin_colors := "n/a",
    homeworld := none,
    people := ["people/2", "people/3"], films := ["films/1"] }

def wStoreSpecies : Store :=
  (CREATE_SPECIES_QUERY wSpecies emptyStore).getD emptyStore

/-- A film document with the comma-joined director string of the claim C4
scenario and the real producer string of `films/1` (cell-12). -/
def wFilmC4 : FilmDoc :=
  { url := "films/1", created := "c", edited := "e", episode_id := 4,
    opening_crawl := "o", release_date := "1977-05-25",
    title := "A New Hope", director := "George Lucas, Rick Marshall",
    producer := "Gary Kurtz, Rick McCallum",
    characters := ["people/1"], planets := ["planets/2"],
    species := ["species/5"], starships := ["starships/2"],
    vehicles := ["vehicles/4"] }

def wStoreC4 : Store := (CREATE_MOVIE_QUERY wFilmC4 emptyStore).getD emptyStore

/-- A planet document whose climate field is comma-joined and whose terrain
field ends in a comma, so Cypher `split` yields a blank fragment. -/
def wPlanetC4 : PlanetDoc :=
  { url := "planets/7", created := "c", diameter := "4900", edited := "e",
    gravity := "1 standard", name := "Endor", orbital_period := "402",
    population := "30000000", rotation_period := "18", surface_water := "8",
    climate := "temperate, tropical", terrain := "desert, forests,",
    residents := [], films := [] }

/-- The store after upserting the comma-heavy planet document. -/
def wStoreP4 : Store :=
  (CREATE_PLANET_QUERY wPlanetC4 emptyStore).getD emptyStore

def wDocC2 : Doc := .film
  { url := "films/1", created := "c", edited := "e", episode_id := 4,
    opening_crawl := "o", release_date := "1977-05-25",
    title := "A New Hope", director := "George Lucas",
    producer := "Gary Kurtz, Rick McCallum",
    characters := ["people/1"], planets := ["planets/1"],
    species := ["species/1"], starships := ["starships/12"],
    vehicles := ["vehicles/14"] }

def wStoreC2 : Store := (upsertAll [wDocC2] wStoreC1).getD emptyStore

/-- The store after upserting the witness film into the empty store. -/
def wStoreFilm : Store := (upsert wDocC2 emptyStore).getD emptyStore

/-! ### Generic lemmas about the store primitives -/

theorem list_map_self {α : Type} {l : List α} {f : α → α}
    (h : ∀ x ∈ l, f x = x) : l.map f = l := by
  induction l with
  | nil => rfl
  | cons a t ih =>
    simp only [List.map_cons, h a (by simp)]
    rw [ih (fun x hx => h x (by simp [hx]))]

theorem nodeMatches_iff {n : Node} {k : Kind} {key : String} :
    nodeMatches n k key = true ↔ n.kind = k ∧ n.key = key := by
  simp [nodeMatches]

theorem nodePresent_iff {s : Store} {k : Kind} {key : String} :
    nodePresent s k key = true ↔
      ∃ n ∈ s.nodes, n.kind = k ∧ n.key = key := by
  simp [nodePresent, List.any_eq_true, nodeMatches_iff]



/-- Any store node survives any primitive operation with its label and key
intact, and the Placeholder label is never added to a node that lacks it. -/
theorem applyOp_nodes_mono (o : Op) {s : Store} {n : Node}
    (hn : n ∈ s.nodes) :
    ∃ m ∈ (applyOp o s).nodes, m.kind = n.kind ∧ m.key = n.key ∧
      (m.placeholder = true → n.placeholder = true) := by
  cases o with
  | merge k key ph =>
    refine ⟨n, ?_, rfl, rfl, fun h => h⟩
    simp only [applyOp, mergeNode]
    split
    · exact hn
    · exact List.mem_append.mpr (Or.inl hn)
  | set k key kvs =>
    refine ⟨if nodeMatches n k key then { n with props := writeProps n.props kvs } else n,
      ?_, ?_, ?_, ?_⟩
    · simpa [applyOp, setProps] using List.mem_map.mpr ⟨n, hn, rfl⟩
    · split <;> rfl
    · split <;> rfl
    · split <;> exact fun h => h
  | removePh k key =>
    refine ⟨if nodeMatches n k key then { n with placeholder := false } else n,
      ?_, ?_, ?_, ?_⟩
    · simpa [applyOp, removePlaceholder] using List.mem_map.mpr ⟨n, hn, rfl⟩
    · split <;> rfl
    · split <;> rfl
    · split
      · intro h; cases h
      · exact fun h => h
  | rel r =>
    refine ⟨n, ?_, rfl, rfl, fun h => h⟩
    simp only [applyOp, ensureRel]
    split <;> exact hn

/-- Every node after a primitive operation either descends from a store
node with the same label and key, or was created by that very operation as
a merge. -/
theorem applyOp_nodes_src (o : Op) {s : Store} {m : Node}
    (hm : m ∈ (applyOp o s).nodes) :
    (∃ n ∈ s.nodes, n.kind = m.kind ∧ n.key = m.key ∧
       (m.placeholder = true → n.placeholder = true)) ∨
    (∃ k key ph, o = .merge k key ph ∧ m = ⟨k, key, ph, []⟩) := by
  cases o with
  | merge k key ph =>
    simp only [applyOp, mergeNode] at hm
    split at hm
    · exact Or.inl ⟨m, hm, rfl, rfl, fun h => h⟩
    · rcases List.mem_append.mp hm with h | h
      · exact Or.inl ⟨m, h, rfl, rfl, fun h => h⟩
      · simp only [List.mem_singleton] at h
        exact Or.inr ⟨k, key, ph, rfl, h⟩
  | set k key kvs =>
    simp only [applyOp, setProps] at hm
    rcases List.mem_map.mp hm with ⟨n, hn, hmn⟩
    refine Or.inl ⟨n, hn, ?_, ?_, ?_⟩ <;> rw [← hmn]
    · split <;> rfl
    · split <;> rfl
    · split <;> exact fun h => h
  | removePh k key =>
    simp only [applyOp, removePlaceholder] at hm
    rcases List.mem_map.mp hm with ⟨n, hn, hmn⟩
    refine Or.inl ⟨n, hn, ?_, ?_, ?_⟩ <;> rw [← hmn]
    · split <;> rfl
    · split <;> rfl
    · split
      · intro h; cases h
      · exact fun h => h
  | rel r =>
    simp only [applyOp, ensureRel] at hm
    split at hm <;> exact Or.inl ⟨m, hm, rfl, rfl, fun h => h⟩

theorem applyOp_rels_mono (o : Op) {s : Store} {r : Rel}
    (h : r ∈ s.rels) : r ∈ (applyOp o s).rels := by
  cases o with
  | merge k key ph => simp only [applyOp, mergeNode]; split <;> exact h
  | set k key kvs => exact h
  | removePh k key => exact h
  | rel r2 =>
    simp only [applyOp, ensureRel]
    split
    · exact h
    · exact List.mem_append.mpr (Or.inl h)

theorem applyOp_rels_src (o : Op) {s : Store} {r : Rel}
    (h : r ∈ (applyOp o s).rels) : r ∈ s.rels ∨ o = .rel r := by
  cases o with
  | merge k key ph =>
    simp only [applyOp, mergeNode] at h
    split at h <;> exact Or.inl h
  | set k key kvs => exact Or.inl h
  | removePh k key => exact Or.inl h
  | rel r2 =>
    simp only [applyOp, ensureRel] at h
    split at h
    · exact Or.inl h
    · rcases List.mem_append.mp h with h | h
      · exact Or.inl h
      · simp only [List.mem_singleton] at h
        exact Or.inr (by rw [h])

theorem applyOps_cons (o : Op) (ops : List Op) (s : Store) :
    applyOps (o :: ops) s = applyOps ops (applyOp o s) := rfl

theorem applyOps_nodes_mono :
    ∀ (ops : List Op) {s : Store} {n : Node}, n ∈ s.nodes →
    ∃ m ∈ (applyOps ops s).nodes, m.kind = n.kind ∧ m.key = n.key ∧
      (m.placeholder = true → n.placeholder = true)
  | [], _, n, hn => ⟨n, hn, rfl, rfl, fun h => h⟩
  | o :: ops, s, n, hn => by
    rcases applyOp_nodes_mono o hn with ⟨m1, hm1, hk1, hy1, hp1⟩
    rcases applyOps_nodes_mono ops hm1 with ⟨m2, hm2, hk2, hy2, hp2⟩
    exact ⟨m2, hm2, hk2.trans hk1, hy2.trans hy1, fun h => hp1 (hp2 h)⟩

theorem applyOps_nodes_src :
    ∀ (ops : List Op) {s : Store} {m : Node}, m ∈ (applyOps ops s).nodes →
    (∃ n ∈ s.nodes, n.kind = m.kind ∧ n.key = m.key ∧
       (m.placeholder = true → n.placeholder = true)) ∨
    (∃ k key ph, Op.merge k key ph ∈ ops ∧ m.kind = k ∧ m.key = key ∧
       (m.placeholder = true → ph = true))
  | [], _, m, hm => Or.inl ⟨m, hm, rfl, rfl, fun h => h⟩
  | o :: ops, s, m, hm => by
    rcases applyOps_nodes_src ops hm with ⟨n1, hn1, hk1, hy1, hp1⟩ | ⟨k, key, ph, hin, hk, hy, hp⟩
    · rcases applyOp_nodes_src o hn1 with ⟨n0, hn0, hk0, hy0, hp0⟩ | ⟨k, key, ph, ho, hn⟩
      · exact Or.inl ⟨n0, hn0, hk0.trans hk1, hy0.trans hy1,
          fun h => hp0 (hp1 h)⟩
      · refine Or.inr ⟨k, key, ph, by rw [ho]; exact List.mem_cons_self _ _, ?_, ?_, ?_⟩
        · rw [← hk1, hn]
        · rw [← hy1, hn]
        · intro h
          have := hp1 h
          rw [hn] at this
          exact this
    · exact Or.inr ⟨k, key, ph, List.mem_cons_of_mem _ hin, hk, hy, hp⟩

theorem applyOps_rels_mono :
    ∀ (ops : List Op) {s : Store} {r : Rel}, r ∈ s.rels →
      r ∈ (applyOps ops s).rels
  | [], _, _, h => h
  | o :: ops, _, _, h => applyOps_rels_mono ops (applyOp_rels_mono o h)

theorem applyOps_rels_src :
    ∀ (ops : List Op) {s : Store} {r : Rel}, r ∈ (applyOps ops s).rels →
      r ∈ s.rels ∨ Op.rel r ∈ ops
  | [], _, _, h => Or.inl h
  | o :: ops, s, r, h => by
    rcases applyOps_rels_src ops h with h1 | h1
    · rcases applyOp_rels_src o h1 with h2 | h2
      · exact Or.inl h2
      · exact Or.inr (by rw [h2]; exact List.mem_cons_self _ _)
    · exact Or.inr (List.mem_cons_of_mem _ h1)

theorem presentP_applyOps (ops : List Op) {k : Kind} {key : String}
    {s : Store} (h : PresentP k key s) : PresentP k key (applyOps ops s) := by
  rcases nodePresent_iff.mp h with ⟨n, hn, hk, hy⟩
  rcases applyOps_nodes_mono ops hn with ⟨m, hm, hk2, hy2, _⟩
  exact nodePresent_iff.mpr ⟨m, hm, hk2.trans hk, hy2.trans hy⟩

theorem hydratedP_applyOps (ops : List Op) {k : Kind} {key : String}
    {s : Store} (h : HydratedP k key s) : HydratedP k key (applyOps ops s) := by
  rcases h with ⟨n, hn, hmt, hph⟩
  rcases applyOps_nodes_mono ops hn with ⟨m, hm, hk2, hy2, hp2⟩
  refine ⟨m, hm, ?_, ?_⟩
  · rw [nodeMatches_iff] at hmt ⊢
    exact ⟨hk2.trans hmt.1, hy2.trans hmt.2⟩
  · cases hmp : m.placeholder with
    | false => rfl
    | true => rw [hp2 hmp] at hph; cases hph

/-! ### Idempotence of the primitive operations -/



theorem setProp_id {f : String} {v : Value} {ps : List (String × Value)}
    (h : PropAt f v ps) : setProp ps f v = ps := by
  unfold setProp
  rw [if_pos]
  · apply list_map_self
    intro e he
    by_cases hef : e.1 = f
    · rw [if_pos (by simpa using hef)]
      exact (h.1 e he hef).symm
    · rw [if_neg (by simpa using hef)]
  · rcases h.2 with ⟨e, he, hef⟩
    exact List.any_eq_true.mpr ⟨e, he, by simpa using hef⟩

theorem setProp_est (f : String) (v : Value) (ps : List (String × Value)) :
    PropAt f v (setProp ps f v) := by
  unfold setProp
  split
  · constructor
    · intro e he hef
      rcases List.mem_map.mp he with ⟨x, hx, hxe⟩
      by_cases hxf : x.1 = f
      · rw [if_pos (by simpa using hxf)] at hxe
        exact hxe.symm
      · rw [if_neg (by simpa using hxf)] at hxe
        rw [← hxe] at hef
        exact absurd hef hxf
    · rename_i hany
      rcases List.any_eq_true.mp hany with ⟨x, hx, hxf⟩
      refine ⟨(f, v), List.mem_map.mpr ⟨x, hx, by rw [if_pos hxf]⟩, rfl⟩
  · constructor
    · intro e he hef
      rcases List.mem_append.mp he with h1 | h1
      · rename_i hany
        exfalso
        exact hany (List.any_eq_true.mpr ⟨e, h1, by simpa using hef⟩)
      · simpa using h1
    · exact ⟨(f, v), List.mem_append.mpr (Or.inr (by simp)), rfl⟩

theorem setProp_preserves {f : String} {v : Value} {g : String} {w : Value}
    {ps : List (String × Value)} (hgf : g ≠ f) (h : PropAt f v ps) :
    PropAt f v (setProp ps g w) := by
  unfold setProp
  split
  · constructor
    · intro e he hef
      rcases List.mem_map.mp he with ⟨x, hx, hxe⟩
      by_cases hxg : x.1 = g
      · rw [if_pos (by simpa using hxg)] at hxe
        rw [← hxe] at hef
        exact absurd (show g = f from hef) hgf
      · rw [if_neg (by simpa using hxg)] at hxe
        rw [← hxe]
        exact h.1 x hx (by rw [hxe]; exact hef)
    · rcases h.2 with ⟨e, he, hef⟩
      by_cases heg : e.1 = g
      · exact absurd (heg.symm.trans hef) hgf
      · exact ⟨e, List.mem_map.mpr ⟨e, he, by rw [if_neg (by simpa using heg)]⟩, hef⟩
  · constructor
    · intro e he hef
      rcases List.mem_append.mp he with h1 | h1
      · exact h.1 e h1 hef
      · simp only [List.mem_singleton] at h1
        rw [h1] at hef
        exact absurd (show g = f from hef) hgf
    · rcases h.2 with ⟨e, he, hef⟩
      exact ⟨e, List.mem_append.mpr (Or.inl he), hef⟩

theorem writeProps_preserves :
    ∀ (kvs : List (String × Value)) {f : String} {v : Value}
      {ps : List (String × Value)}, (∀ kv ∈ kvs, kv.1 ≠ f) →
      PropAt f v ps → PropAt f v (writeProps ps kvs)
  | [], _, _, _, _, h => h
  | kv :: kvs, f, v, ps, hne, h =>
    writeProps_preserves kvs (fun x hx => hne x (List.mem_cons_of_mem _ hx))
      (setProp_preserves (hne kv (List.mem_cons_self _ _)) h)

theorem writeProps_est :
    ∀ (kvs : List (String × Value)) (ps : List (String × Value)),
      (kvs.map Prod.fst).Nodup →
      ∀ kv ∈ kvs, PropAt kv.1 kv.2 (writeProps ps kvs)
  | [], _, _, _, h => absurd h (List.not_mem_nil _)
  | kv0 :: kvs, ps, hnd, kv, hkv => by
    have hnd2 : kv0.1 ∉ kvs.map Prod.fst ∧ (kvs.map Prod.fst).Nodup := by
      rw [List.map_cons] at hnd
      exact List.nodup_cons.mp hnd
    rcases List.mem_cons.mp hkv with h | h
    · subst h
      exact writeProps_preserves kvs
        (fun x hx hc => hnd2.1 (List.mem_map.mpr ⟨x, hx, hc⟩))
        (setProp_est kv.1 kv.2 ps)
    · exact writeProps_est kvs (setProp ps kv0.1 kv0.2) hnd2.2 kv h

theorem writeProps_id :
    ∀ (kvs : List (String × Value)) {ps : List (String × Value)},
      (∀ kv ∈ kvs, PropAt kv.1 kv.2 ps) → writeProps ps kvs = ps
  | [], _, _ => rfl
  | kv :: kvs, ps, h => by
    have h0 : setProp ps kv.1 kv.2 = ps := setProp_id (h kv (List.mem_cons_self _ _))
    show writeProps (setProp ps kv.1 kv.2) kvs = ps
    rw [h0]
    exact writeProps_id kvs (fun x hx => h x (List.mem_cons_of_mem _ hx))



theorem applyOp_id (o : Op) (s : Store) (h : OpPost o s) : applyOp o s = s := by
  cases o with
  | merge k key ph =>
    have h2 : nodePresent s k key = true := h
    simp only [applyOp, mergeNode]
    rw [if_pos h2]
  | set k key kvs =>
    show setProps k key kvs s = s
    unfold setProps
    have : s.nodes.map (fun n =>
        if nodeMatches n k key then { n with props := writeProps n.props kvs }
        else n) = s.nodes := by
      apply list_map_self
      intro n hn
      split
      · rename_i hmt
        rw [h n hn hmt]
      · rfl
    rw [this]
  | removePh k key =>
    show removePlaceholder k key s = s
    unfold removePlaceholder
    have : s.nodes.map (fun n =>
        if nodeMatches n k key then { n with placeholder := false }
        else n) = s.nodes := by
      apply list_map_self
      intro n hn
      split
      · rename_i hmt
        rw [← h n hn hmt]
      · rfl
    rw [this]
  | rel r =>
    have h2 : r ∈ s.rels := h
    simp only [applyOp, ensureRel]
    rw [if_pos (by simp [List.contains, List.elem_iff, h2])]

theorem applyOps_id :
    ∀ (ops : List Op) {s : Store}, (∀ o ∈ ops, OpPost o s) →
      applyOps ops s = s
  | [], _, _ => rfl
  | o :: ops, s, h => by
    rw [applyOps_cons, applyOp_id o s (h o (List.mem_cons_self _ _))]
    exact applyOps_id ops (fun x hx => h x (List.mem_cons_of_mem _ hx))

/-! ### Each clause's postcondition is established by running it and
preserved by the clauses that follow it. -/

theorem presentP_applyOp (o : Op) {k : Kind} {key : String} {s : Store}
    (h : PresentP k key s) : PresentP k key (applyOp o s) := by
  rcases nodePresent_iff.mp h with ⟨n, hn, hk, hy⟩
  rcases applyOp_nodes_mono o hn with ⟨m, hm, hk2, hy2, _⟩
  exact nodePresent_iff.mpr ⟨m, hm, hk2.trans hk, hy2.trans hy⟩

theorem mergeNode_present (k : Kind) (key : String) (ph : Bool) (s : Store) :
    PresentP k key (mergeNode k key ph s) := by
  unfold mergeNode
  split
  · assumption
  · exact nodePresent_iff.mpr
      ⟨⟨k, key, ph, []⟩, List.mem_append.mpr (Or.inr (by simp)), rfl, rfl⟩

/-- A node that is present and free of the Placeholder label stays so under
every clause: the only clause that could introduce a matching Placeholder
node is a merge, and a merge is the identity on present keys. -/
theorem cleanP_applyOp (o : Op) {k : Kind} {key : String} {s : Store}
    (h1 : PresentP k key s) (h2 : NoPhP k key s) :
    PresentP k key (applyOp o s) ∧ NoPhP k key (applyOp o s) := by
  refine ⟨presentP_applyOp o h1, ?_⟩
  intro m hm hmt
  rcases applyOp_nodes_src o hm with ⟨n, hn, hk, hy, hp⟩ | ⟨k2, key2, ph, ho, hmeq⟩
  · cases hph : m.placeholder with
    | false => rfl
    | true =>
      have : nodeMatches n k key = true := by
        rw [nodeMatches_iff] at hmt ⊢
        exact ⟨hk.trans hmt.1, hy.trans hmt.2⟩
      rw [← h2 n hn this]
      exact (hp hph).symm
  · subst ho
    have hkk : k2 = k ∧ key2 = key := by
      rw [hmeq] at hmt
      simpa using nodeMatches_iff.mp hmt
    have h1b : nodePresent s k2 key2 = true := by
      rw [hkk.1, hkk.2]
      exact h1
    simp only [applyOp, mergeNode] at hm
    rw [if_pos h1b] at hm
    exact h2 m hm hmt

theorem cleanP_applyOps :
    ∀ (ops : List Op) {k : Kind} {key : String} {s : Store},
      PresentP k key s → NoPhP k key s →
      PresentP k key (applyOps ops s) ∧ NoPhP k key (applyOps ops s)
  | [], _, _, _, h1, h2 => ⟨h1, h2⟩
  | o :: ops, _, _, _, h1, h2 => by
    rcases cleanP_applyOp o h1 h2 with ⟨h3, h4⟩
    exact cleanP_applyOps ops h3 h4



theorem propsP_applyOp (o : Op) {k : Kind} {key : String}
    {kvs : List (String × Value)} {s : Store} (ho : NotSetOn k key o)
    (h1 : PresentP k key s) (h2 : PropsDoneP k key kvs s) :
    PresentP k key (applyOp o s) ∧ PropsDoneP k key kvs (applyOp o s) := by
  refine ⟨presentP_applyOp o h1, ?_⟩
  intro m hm hmt
  cases o with
  | merge k2 key2 ph =>
    simp only [applyOp, mergeNode] at hm
    split at hm
    · exact h2 m hm hmt
    · rcases List.mem_append.mp hm with h | h
      · exact h2 m h hmt
      · simp only [List.mem_singleton] at h
        rename_i hnp
        exfalso
        apply hnp
        have hkk : k2 = k ∧ key2 = key := by
          rw [h] at hmt
          simpa using nodeMatches_iff.mp hmt
        rw [hkk.1, hkk.2]
        exact h1
  | set k2 key2 kvs2 =>
    simp only [applyOp, setProps] at hm
    rcases List.mem_map.mp hm with ⟨n, hn, hmn⟩
    have hnm : nodeMatches n k key = true := by
      rw [nodeMatches_iff] at hmt ⊢
      rw [← hmn] at hmt
      constructor
      · rcases hmt with ⟨ha, hb⟩
        revert ha
        split <;> exact fun ha => ha
      · rcases hmt with ⟨ha, hb⟩
        revert hb
        split <;> exact fun hb => hb
    have hne : nodeMatches n k2 key2 = false := by
      cases hq : nodeMatches n k2 key2 with
      | false => rfl
      | true =>
        exfalso
        apply ho
        have ha := nodeMatches_iff.mp hq
        have hb := nodeMatches_iff.mp hnm
        exact ⟨ha.1.symm.trans hb.1 ▸ rfl, by rw [← ha.2, hb.2]⟩
    rw [hne] at hmn
    simp only [Bool.false_eq_true, if_false] at hmn
    rw [← hmn]
    exact h2 n hn hnm
  | removePh k2 key2 =>
    simp only [applyOp, removePlaceholder] at hm
    rcases List.mem_map.mp hm with ⟨n, hn, hmn⟩
    have hprops : m.props = n.props := by
      rw [← hmn]
      split <;> rfl
    have hnm : nodeMatches n k key = true := by
      rw [nodeMatches_iff] at hmt ⊢
      rw [← hmn] at hmt
      constructor
      · rcases hmt with ⟨ha, _⟩
        revert ha
        split <;> exact fun ha => ha
      · rcases hmt with ⟨_, hb⟩
        revert hb
        split <;> exact fun hb => hb
    rw [hprops]
    exact h2 n hn hnm
  | rel r =>
    have hm2 : m ∈ s.nodes := by
      simp only [applyOp, ensureRel] at hm
      split at hm <;> exact hm
    exact h2 m hm2 hmt

theorem propsP_applyOps :
    ∀ (ops : List Op) {k : Kind} {key : String} {kvs : List (String × Value)}
      {s : Store}, (∀ o ∈ ops, NotSetOn k key o) →
      PresentP k key s → PropsDoneP k key kvs s →
      PresentP k key (applyOps ops s) ∧ PropsDoneP k key kvs (applyOps ops s)
  | [], _, _, _, _, _, h1, h2 => ⟨h1, h2⟩
  | o :: ops, _, _, _, _, ho, h1, h2 => by
    rcases propsP_applyOp o (ho o (List.mem_cons_self _ _)) h1 h2 with ⟨h3, h4⟩
    exact propsP_applyOps ops (fun x hx => ho x (List.mem_cons_of_mem _ hx)) h3 h4

theorem setProps_est {k : Kind} {key : String} {kvs : List (String × Value)}
    {s : Store} (hnd : (kvs.map Prod.fst).Nodup) :
    PropsDoneP k key kvs (setProps k key kvs s) := by
  intro m hm hmt
  simp only [setProps] at hm
  rcases List.mem_map.mp hm with ⟨n, hn, hmn⟩
  by_cases hq : nodeMatches n k key = true
  · rw [if_pos hq] at hmn
    rw [← hmn]
    exact writeProps_id kvs (fun kv hkv => writeProps_est kvs n.props hnd kv hkv)
  · rw [if_neg hq] at hmn
    rw [← hmn] at hmt
    exact absurd hmt hq

theorem removePlaceholder_est (k : Kind) (key : String) (s : Store) :
    NoPhP k key (removePlaceholder k key s) := by
  intro m hm hmt
  simp only [removePlaceholder] at hm
  rcases List.mem_map.mp hm with ⟨n, hn, hmn⟩
  by_cases hq : nodeMatches n k key = true
  · rw [if_pos hq] at hmn
    rw [← hmn]
  · rw [if_neg hq] at hmn
    rw [← hmn] at hmt
    exact absurd hmt hq

theorem ensureRel_est (r : Rel) (s : Store) : r ∈ (ensureRel r s).rels := by
  unfold ensureRel
  split
  · rename_i hc
    simpa [List.contains, List.elem_iff] using hc
  · exact List.mem_append.mpr (Or.inr (by simp))



theorem WFp_mono :
    ∀ (ops : List Op) {p1 p2 : List (Kind × String)},
      (∀ x ∈ p1, x ∈ p2) → WFp ops p1 → WFp ops p2
  | [], _, _, _, _ => trivial
  | .merge k key ph :: rest, p1, p2, hsub, h =>
    WFp_mono rest (fun x hx => by
      rcases List.mem_cons.mp hx with h1 | h1
      · exact h1 ▸ List.mem_cons_self _ _
      · exact List.mem_cons_of_mem _ (hsub x h1)) h
  | .set k key kvs :: rest, p1, p2, hsub, h =>
    ⟨hsub _ h.1, h.2.1, h.2.2.1, WFp_mono rest hsub h.2.2.2⟩
  | .removePh k key :: rest, p1, p2, hsub, h =>
    ⟨hsub _ h.1, WFp_mono rest hsub h.2⟩
  | .rel r :: rest, p1, p2, hsub, h => WFp_mono rest hsub h

/-- Running a well-formed clause list establishes every clause's
postcondition on the final store.  This is the heart of idempotence: on the
produced store every clause is the identity. -/
theorem applyOps_posts :
    ∀ (ops : List Op) (pres : List (Kind × String)) (s : Store),
      (∀ p ∈ pres, PresentP p.1 p.2 s) → WFp ops pres →
      ∀ o ∈ ops, OpPost o (applyOps ops s)
  | [], _, _, _, _, _, ho => absurd ho (List.not_mem_nil _)
  | o0 :: rest, pres, s, hpres, hwf, o, ho => by
    rw [applyOps_cons]
    rcases List.mem_cons.mp ho with rfl | hor
    · -- the head clause's postcondition survives the tail
      cases o with
      | merge k key ph =>
        exact presentP_applyOps rest (mergeNode_present k key ph s)
      | set k key kvs =>
        have h1 : PresentP k key s := hpres _ hwf.1
        have h1b : PresentP k key (applyOp (.set k key kvs) s) :=
          presentP_applyOp _ h1
        have h2 : PropsDoneP k key kvs (applyOp (.set k key kvs) s) :=
          setProps_est hwf.2.1
        exact (propsP_applyOps rest hwf.2.2.1 h1b h2).2
      | removePh k key =>
        have h1 : PresentP k key s := hpres _ hwf.1
        have h1b : PresentP k key (applyOp (.removePh k key) s) :=
          presentP_applyOp _ h1
        have h2 : NoPhP k key (applyOp (.removePh k key) s) :=
          removePlaceholder_est k key s
        exact (cleanP_applyOps rest h1b h2).2
      | rel r =>
        exact applyOps_rels_mono rest (ensureRel_est r s)
    · -- the tail clauses, by induction with the grown presence set
      cases o0 with
      | merge k key ph =>
        refine applyOps_posts rest ((k, key) :: pres) _ ?_ hwf o hor
        intro p hp
        rcases List.mem_cons.mp hp with rfl | hp2
        · exact mergeNode_present k key ph s
        · exact presentP_applyOp _ (hpres p hp2)
      | set k key kvs =>
        refine applyOps_posts rest pres _ ?_ hwf.2.2.2 o hor
        exact fun p hp => presentP_applyOp _ (hpres p hp)
      | removePh k key =>
        refine applyOps_posts rest pres _ ?_ hwf.2 o hor
        exact fun p hp => presentP_applyOp _ (hpres p hp)
      | rel r =>
        refine applyOps_posts rest pres _ ?_ hwf o hor
        exact fun p hp => presentP_applyOp _ (hpres p hp)

/-- On a store produced by a well-formed clause list, re-running the same
clause list is the identity: the upsert queries are idempotent. -/
theorem applyOps_idem (ops : List Op) (s : Store) (hwf : WFp ops []) :
    applyOps ops (applyOps ops s) = applyOps ops s :=
  applyOps_id ops (applyOps_posts ops [] s (fun p hp => absurd hp (List.not_mem_nil _)) hwf)

/-! ### The notebook's queries are well-formed clause lists -/



theorem WFp_plain :
    ∀ (ops : List Op) (pres : List (Kind × String)),
      (∀ o ∈ ops, PlainOp o) → WFp ops pres
  | [], _, _ => trivial
  | .merge k key ph :: rest, pres, h =>
    WFp_plain rest _ (fun o ho => h o (List.mem_cons_of_mem _ ho))
  | .set k key kvs :: rest, _, h =>
    absurd (h _ (List.mem_cons_self _ _)) (fun f => f)
  | .removePh k key :: rest, _, h =>
    absurd (h _ (List.mem_cons_self _ _)) (fun f => f)
  | .rel r :: rest, pres, h =>
    WFp_plain rest _ (fun o ho => h o (List.mem_cons_of_mem _ ho))

theorem NotSetOn_of_plain {o : Op} (h : PlainOp o) (k : Kind) (key : String) :
    NotSetOn k key o := by
  cases o <;> trivial

theorem plain_nil : ∀ o ∈ ([] : List Op), PlainOp o :=
  fun o ho => absurd ho (List.not_mem_nil _)

theorem plain_cons {o0 : Op} {l : List Op} (h0 : PlainOp o0)
    (h : ∀ o ∈ l, PlainOp o) : ∀ o ∈ o0 :: l, PlainOp o := by
  intro o ho
  rcases List.mem_cons.mp ho with rfl | ho
  · exact h0
  · exact h o ho

theorem personProps_keys (d : PersonDoc) :
    (personProps d).map Prod.fst =
      ["birth_year", "created", "edited", "eye_color", "gender",
       "hair_color", "height", "mass", "name", "skin_color"] := rfl

theorem filmProps_keys (d : FilmDoc) :
    (filmProps d).map Prod.fst =
      ["created", "edited", "episode_id", "opening_crawl", "release_date",
       "title"] := rfl

theorem planetProps_keys (d : PlanetDoc) :
    (planetProps d).map Prod.fst =
      ["created", "diameter", "edited", "gravity", "name", "orbital_period",
       "population", "rotation_period", "surface_water"] := rfl

theorem speciesProps_keys (d : SpeciesDoc) :
    (speciesProps d).map Prod.fst =
      ["name", "language", "average_height", "average_lifespan",
       "classification", "created", "designation", "eye_colors",
       "hair_colors", "skin_colors"] := rfl

theorem starshipProps_keys (d : StarshipDoc) :
    (starshipProps d).map Prod.fst =
      ["MGLT", "consumables", "cost_in_credits", "created", "crew", "edited",
       "hyperdrive_rating", "length", "max_atmosphering_speed", "model",
       "name", "passengers"] := rfl

theorem vehicleProps_keys (d : VehicleDoc) :
    (vehicleProps d).map Prod.fst =
      ["cargo_capacity", "consumables", "cost_in_credits", "created", "crew",
       "edited", "length", "max_atmosphering_speed", "model", "name",
       "passengers"] := rfl

theorem plain_append {l1 l2 : List Op} (h1 : ∀ o ∈ l1, PlainOp o)
    (h2 : ∀ o ∈ l2, PlainOp o) : ∀ o ∈ l1 ++ l2, PlainOp o := by
  intro o ho
  rcases List.mem_append.mp ho with h | h
  · exact h1 o h
  · exact h2 o h

theorem plain_ite (c : Prop) [Decidable c] {l1 l2 : List Op}
    (h1 : ∀ o ∈ l1, PlainOp o) (h2 : ∀ o ∈ l2, PlainOp o) :
    ∀ o ∈ (if c then l1 else l2), PlainOp o := by
  split
  · exact h1
  · exact h2

theorem plain_linkOps (tk : Kind) (ph : Bool) (mk : String → Rel)
    (keys : List String) : ∀ o ∈ linkOps tk ph mk keys, PlainOp o := by
  intro o ho
  rcases List.mem_flatMap.mp ho with ⟨x, _, hox⟩
  rcases List.mem_cons.mp hox with h | h
  · rw [h]; trivial
  · simp only [List.mem_singleton] at h
    rw [h]; trivial

theorem personTail_plain (d : PersonDoc) (hw : String) :
    ∀ o ∈ (if d.species.isEmpty then [] else
      stubOps .Species (fun k => ⟨.Person, d.url, .IS_SPECIES, .Species, k⟩)
        d.species
      ++ (if d.starships.isEmpty then [] else
        stubOps .Starship (fun k => ⟨.Person, d.url, .PILOTS, .Starship, k⟩)
          d.starships
        ++ (if d.vehicles.isEmpty then [] else
          stubOps .Vehicle (fun k => ⟨.Person, d.url, .PILOTS, .Vehicle, k⟩)
            d.vehicles))), PlainOp o :=
  plain_ite _ plain_nil (plain_append (plain_linkOps _ _ _ _)
    (plain_ite _ plain_nil (plain_append (plain_linkOps _ _ _ _)
      (plain_ite _ plain_nil (plain_linkOps _ _ _ _)))))

theorem personOps_WF (d : PersonDoc) (hw : String) :
    WFp (personOps d hw) [] := by
  have htail := personTail_plain d hw
  refine ⟨List.mem_cons_self _ _, by rw [personProps_keys]; decide, ?_,
    List.mem_cons_self _ _, ?_⟩
  · intro o ho
    rcases List.mem_cons.mp ho with rfl | ho
    · trivial
    rcases List.mem_cons.mp ho with rfl | ho
    · trivial
    rcases List.mem_cons.mp ho with rfl | ho
    · trivial
    exact NotSetOn_of_plain (htail o ho) _ _
  · exact WFp_plain _ _ (plain_cons True.intro (plain_cons True.intro htail))

theorem filmTail_plain (d : FilmDoc) :
    ∀ o ∈ (if d.characters.isEmpty then [] else
      stubOps .Person (fun k => ⟨.Person, k, .APPEARS_IN, .Film, d.url⟩)
        d.characters
      ++ (if d.planets.isEmpty then [] else
        stubOps .Planet (fun k => ⟨.Film, d.url, .TAKES_PLACE_ON, .Planet, k⟩)
          d.planets
        ++ (if d.species.isEmpty then [] else
          stubOps .Species (fun k => ⟨.Species, k, .APPEARS_IN, .Film, d.url⟩)
            d.species
          ++ (if d.starships.isEmpty then [] else
            stubOps .Starship
              (fun k => ⟨.Starship, k, .APPEARS_IN, .Film, d.url⟩) d.starships
            ++ (if d.vehicles.isEmpty then [] else
              stubOps .Vehicle
                (fun k => ⟨.Vehicle, k, .APPEARS_IN, .Film, d.url⟩)
                d.vehicles))))), PlainOp o :=
  plain_ite _ plain_nil (plain_append (plain_linkOps _ _ _ _)
    (plain_ite _ plain_nil (plain_append (plain_linkOps _ _ _ _)
      (plain_ite _ plain_nil (plain_append (plain_linkOps _ _ _ _)
        (plain_ite _ plain_nil (plain_append (plain_linkOps _ _ _ _)
          (plain_ite _ plain_nil (plain_linkOps _ _ _ _)))))))))

theorem filmOps_tail2_plain (d : FilmDoc) :
    ∀ o ∈ (tagOps .Director
        (fun k => ⟨.Film, d.url, .DIRECTED_BY, .Director, k⟩)
        (splitComma d.director)
      ++ tagOps .Producer
        (fun k => ⟨.Film, d.url, .PRODUCED_BY, .Producer, k⟩)
        (splitComma d.producer))
      ++ (if d.characters.isEmpty then [] else
        stubOps .Person (fun k => ⟨.Person, k, .APPEARS_IN, .Film, d.url⟩)
          d.characters
        ++ (if d.planets.isEmpty then [] else
          stubOps .Planet
            (fun k => ⟨.Film, d.url, .TAKES_PLACE_ON, .Planet, k⟩) d.planets
          ++ (if d.species.isEmpty then [] else
            stubOps .Species
              (fun k => ⟨.Species, k, .APPEARS_IN, .Film, d.url⟩) d.species
            ++ (if d.starships.isEmpty then [] else
              stubOps .Starship
                (fun k => ⟨.Starship, k, .APPEARS_IN, .Film, d.url⟩)
                d.starships
              ++ (if d.vehicles.isEmpty then [] else
                stubOps .Vehicle
                  (fun k => ⟨.Vehicle, k, .APPEARS_IN, .Film, d.url⟩)
                  d.vehicles))))), PlainOp o :=
  plain_append
    (plain_append (plain_linkOps _ _ _ _) (plain_linkOps _ _ _ _))
    (filmTail_plain d)

theorem filmOps_WF (d : FilmDoc) : WFp (filmOps d) [] := by
  have htail := filmOps_tail2_plain d
  refine ⟨List.mem_cons_self _ _, by rw [filmProps_keys]; decide, ?_, ?_⟩
  · intro o ho
    exact NotSetOn_of_plain (htail o ho) _ _
  · exact WFp_plain _ _ htail

theorem planetOps_WF (d : PlanetDoc) : WFp (planetOps d) [] := by
  have htail : ∀ o ∈ tagOps .Climate
      (fun k => ⟨.Planet, d.url, .HAS_CLIMATE, .Climate, k⟩)
      (splitComma d.climate)
    ++ tagOps .Terrain
      (fun k => ⟨.Planet, d.url, .HAS_TERRAIN, .Terrain, k⟩)
      (splitComma d.terrain), PlainOp o :=
    plain_append (plain_linkOps _ _ _ _) (plain_linkOps _ _ _ _)
  refine ⟨List.mem_cons_self _ _, by rw [planetProps_keys]; decide, ?_,
    List.mem_cons_self _ _, ?_⟩
  · intro o ho
    rcases List.mem_cons.mp ho with rfl | ho
    · trivial
    exact NotSetOn_of_plain (htail o ho) _ _
  · exact WFp_plain _ _ htail

theorem speciesOps_WF (d : SpeciesDoc) : WFp (speciesOps d) [] := by
  refine ⟨List.mem_cons_self _ _, by rw [speciesProps_keys]; decide, ?_, List.mem_cons_self _ _, True.intro⟩
  intro o ho
  rcases List.mem_cons.mp ho with rfl | ho
  · trivial
  exact absurd ho (List.not_mem_nil _)

theorem starshipOps_WF (d : StarshipDoc) : WFp (starshipOps d) [] := by
  have htail : ∀ o ∈ tagOps .Manufacturer
      (fun k => ⟨.Starship, d.url, .MANUFACTURED_BY, .Manufacturer, k⟩)
      [d.manufacturer]
    ++ tagOps .StarshipClass
      (fun k => ⟨.Starship, d.url, .IS_CLASS, .StarshipClass, k⟩)
      [d.starship_class], PlainOp o :=
    plain_append (plain_linkOps _ _ _ _) (plain_linkOps _ _ _ _)
  refine ⟨List.mem_cons_self _ _, by rw [starshipProps_keys]; decide, ?_,
    List.mem_cons_self _ _, ?_⟩
  · intro o ho
    rcases List.mem_cons.mp ho with rfl | ho
    · trivial
    exact NotSetOn_of_plain (htail o ho) _ _
  · exact WFp_plain _ _ htail

theorem vehicleOps_WF (d : VehicleDoc) : WFp (vehicleOps d) [] := by
  have htail : ∀ o ∈ tagOps .Manufacturer
      (fun k => ⟨.Vehicle, d.url, .MANUFACTURED_BY, .Manufacturer, k⟩)
      [d.manufacturer]
    ++ tagOps .VehicleClass
      (fun k => ⟨.Vehicle, d.url, .IS_CLASS, .VehicleClass, k⟩)
      [d.vehicle_class], PlainOp o :=
    plain_append (plain_linkOps _ _ _ _) (plain_linkOps _ _ _ _)
  refine ⟨List.mem_cons_self _ _, by rw [vehicleProps_keys]; decide, ?_,
    List.mem_cons_self _ _, ?_⟩
  · intro o ho
    rcases List.mem_cons.mp ho with rfl | ho
    · trivial
    exact NotSetOn_of_plain (htail o ho) _ _
  · exact WFp_plain _ _ htail

/-- Every upsert query's clause list is well-formed. -/
theorem docOps_WF (d : Doc) (ops : List Op) (h : docOps d = some ops) :
    WFp ops [] := by
  cases d with
  | person d =>
    cases hw : d.homeworld with
    | none => simp [docOps, hw] at h
    | some hw0 =>
      have h2 : personOps d hw0 = ops := by simpa [docOps, hw] using h
      exact h2 ▸ personOps_WF d hw0
  | film d =>
    simp only [docOps, Option.some_inj] at h
    exact h ▸ filmOps_WF d
  | planet d =>
    simp only [docOps, Option.some_inj] at h
    exact h ▸ planetOps_WF d
  | species d =>
    simp only [docOps, Option.some_inj] at h
    exact h ▸ speciesOps_WF d
  | starship d =>
    simp only [docOps, Option.some_inj] at h
    exact h ▸ starshipOps_WF d
  | vehicle d =>
    simp only [docOps, Option.some_inj] at h
    exact h ▸ vehicleOps_WF d

/-- `upsert` is `docOps` followed by `applyOps`. -/
theorem upsert_eq_docOps (d : Doc) (s : Store) :
    upsert d s = (docOps d).map (fun ops => applyOps ops s) := by
  cases d with
  | person d =>
    cases hw : d.homeworld with
    | none => simp [upsert, CREATE_PERSON_QUERY, docOps, hw]
    | some hw0 => simp [upsert, CREATE_PERSON_QUERY, docOps, hw]
  | film d => rfl
  | planet d => rfl
  | species d => rfl
  | starship d => rfl
  | vehicle d => rfl

/-- A successful upsert applies its well-formed clause list. -/
theorem upsert_some (d : Doc) {s s1 : Store} (h : upsert d s = some s1) :
    ∃ ops, docOps d = some ops ∧ applyOps ops s = s1 ∧ WFp ops [] := by
  rw [upsert_eq_docOps] at h
  cases hops : docOps d with
  | none => rw [hops] at h; cases h
  | some ops =>
    rw [hops] at h
    exact ⟨ops, rfl, by simpa using h, docOps_WF d ops hops⟩

/-! ### Claim C1: idempotence of upsert -/

/-- Claim C1: for every document D of kind K, running upsert(K, D) twice
leaves the store in exactly the same state as running it once: the second
run changes no attribute, duplicates no attribute and duplicates no
relationship, because on the store produced by the first run every clause
of the query is the identity. -/
theorem C1_upsert_idempotent (d : Doc) (s s1 : Store)
    (h : upsert d s = some s1) : upsert d s1 = some s1 := by
  rcases upsert_some d h with ⟨ops, hops, happ, hwf⟩
  rw [upsert_eq_docOps, hops]
  have h2 := applyOps_idem ops s hwf
  rw [happ] at h2
  simpa using h2



/-- Witness for C1: the sample person document upserts into the empty store
and re-upserting yields the identical store. -/
theorem C1_upsert_idempotent_witness :
    upsert wDocC1 emptyStore = some wStoreC1 ∧
      upsert wDocC1 wStoreC1 = some wStoreC1 :=
  ⟨by decide, C1_upsert_idempotent wDocC1 emptyStore wStoreC1 (by decide)⟩

/-! ### Claim C2: hydration is monotonic -/

theorem upsert_hydrated_mono (d : Doc) {s s2 : Store}
    (h : upsert d s = some s2) {k : Kind} {key : String}
    (hh : HydratedP k key s) : HydratedP k key s2 := by
  rcases upsert_some d h with ⟨ops, _, happ, _⟩
  exact happ ▸ hydratedP_applyOps ops hh

theorem upsertAll_hydrated_mono :
    ∀ (ds : List Doc) (s s2 : Store), upsertAll ds s = some s2 →
      ∀ (k : Kind) (key : String), HydratedP k key s → HydratedP k key s2
  | [], s, s2, h, k, key, hh => by
    have : s = s2 := by simpa [upsertAll] using h
    exact this ▸ hh
  | d :: ds, s, s2, h, k, key, hh => by
    unfold upsertAll at h
    cases hu : upsert d s with
    | none => rw [hu] at h; cases h
    | some s1 =>
      rw [hu] at h
      exact upsertAll_hydrated_mono ds s1 s2 h k key
        (upsert_hydrated_mono d hu hh)

theorem upsert_clean_mono (d : Doc) {s s2 : Store}
    (h : upsert d s = some s2) {k : Kind} {key : String}
    (h1 : PresentP k key s) (h2 : NoPhP k key s) :
    PresentP k key s2 ∧ NoPhP k key s2 := by
  rcases upsert_some d h with ⟨ops, _, happ, _⟩
  exact happ ▸ cleanP_applyOps ops h1 h2

theorem upsertAll_clean_mono :
    ∀ (ds : List Doc) (s s2 : Store), upsertAll ds s = some s2 →
      ∀ (k : Kind) (key : String), PresentP k key s → NoPhP k key s →
      PresentP k key s2 ∧ NoPhP k key s2
  | [], s, s2, h, k, key, h1, h2 => by
    have : s = s2 := by simpa [upsertAll] using h
    exact this ▸ ⟨h1, h2⟩
  | d :: ds, s, s2, h, k, key, h1, h2 => by
    unfold upsertAll at h
    cases hu : upsert d s with
    | none => rw [hu] at h; cases h
    | some s1 =>
      rw [hu] at h
      rcases upsert_clean_mono d hu h1 h2 with ⟨h3, h4⟩
      exact upsertAll_clean_mono ds s1 s2 h k key h3 h4

/-- Claim C2: hydration is monotonic.  Once an entity is hydrated (present
without the Placeholder label), no sequence of further upserts — of that
entity's own document or of any other document that references it — ever
re-adds the Placeholder label: a hydrated witness node survives every
upsert, and if no node under the key carries the label, none ever does
again, because `ON CREATE SET :Placeholder` fires only when the merge
creates the node and no other clause adds the label. -/
theorem C2_hydration_monotonic (ds : List Doc) (s s2 : Store)
    (h : upsertAll ds s = some s2) (k : Kind) (key : String) :
    (HydratedP k key s → HydratedP k key s2) ∧
    (PresentP k key s → NoPhP k key s →
      PresentP k key s2 ∧ NoPhP k key s2) :=
  ⟨fun hh => upsertAll_hydrated_mono ds s s2 h k key hh,
   fun h1 h2 => upsertAll_clean_mono ds s s2 h k key h1 h2⟩


set_option maxRecDepth 4000 in
/-- Witness for C2: a person hydrated by its upsert stays hydrated after a
film that references the same person url is upserted. -/
theorem C2_hydration_monotonic_witness :
    upsertAll [wDocC2] wStoreC1 = some wStoreC2 ∧
      HydratedP .Person "people/1" wStoreC1 ∧
      HydratedP .Person "people/1" wStoreC2 ∧
      NoPhP .Person "people/1" wStoreC2 := by
  refine ⟨by decide, by unfold HydratedP; decide, ?_, ?_⟩
  · exact (C2_hydration_monotonic [wDocC2] wStoreC1 wStoreC2 (by decide)
      .Person "people/1").1 (by unfold HydratedP; decide)
  · exact ((C2_hydration_monotonic [wDocC2] wStoreC1 wStoreC2 (by decide)
      .Person "people/1").2 (by unfold PresentP; decide)
      (by unfold NoPhP; decide)).2

/-! ### Claim C3: null single-valued references -/

theorem applyOp_rels_eq (o : Op) (s : Store) (h : NoRelOp o) :
    (applyOp o s).rels = s.rels := by
  cases o with
  | merge k key ph =>
    simp only [applyOp, mergeNode]
    split <;> rfl
  | set k key kvs => rfl
  | removePh k key => rfl
  | rel r => exact absurd h (fun f => f)

theorem applyOps_rels_eq :
    ∀ (ops : List Op) (s : Store), (∀ o ∈ ops, NoRelOp o) →
      (applyOps ops s).rels = s.rels
  | [], _, _ => rfl
  | o :: ops, s, h => by
    rw [applyOps_cons,
      applyOps_rels_eq ops _ (fun x hx => h x (List.mem_cons_of_mem _ hx)),
      applyOp_rels_eq o s (h o (List.mem_cons_self _ _))]

/-- Counterexample for claim C3.  The claim would have every upsert of a
document with a null single-valued reference complete while skipping that
field; but CREATE_PERSON_QUERY contains `MERGE (home:Planet {url:
{homeworld}})` with no null guard, and a Cypher `MERGE` on a null property
raises, so the query errors and the transaction aborts instead of
completing without the stub. -/
theorem C3_null_homeworld_counterexample :
    CREATE_PERSON_QUERY wPersonNull emptyStore = none := by decide

/-- Claim C3, amended: a Species document with a null homeworld creates no
stub and no relationship for that field because CREATE_SPECIES_QUERY
ignores `homeworld` (and `people` and `films`) entirely — it creates no
relationships at all and touches no node but the species itself; a Person
document with a null homeworld, however, makes CREATE_PERSON_QUERY raise
(`MERGE` on a null property), aborting the whole transaction, so nothing
at all — no stub, no relationship, but also no attribute write — happens. -/
theorem C3_null_reference_amended :
    (∀ (d : SpeciesDoc) (s s2 : Store), CREATE_SPECIES_QUERY d s = some s2 →
      s2.rels = s.rels ∧
      ∀ n ∈ s2.nodes, (∃ m ∈ s.nodes, m.kind = n.kind ∧ m.key = n.key) ∨
        (n.kind = .Species ∧ n.key = d.url)) ∧
    (∀ (d : PersonDoc) (s : Store), d.homeworld = none →
      CREATE_PERSON_QUERY d s = none) := by
  constructor
  · intro d s s2 h
    have h2 : applyOps (speciesOps d) s = s2 := by
      simpa [CREATE_SPECIES_QUERY] using h
    subst h2
    constructor
    · apply applyOps_rels_eq
      intro o ho
      rcases List.mem_cons.mp ho with rfl | ho
      · trivial
      rcases List.mem_cons.mp ho with rfl | ho
      · trivial
      rcases List.mem_cons.mp ho with rfl | ho
      · trivial
      exact absurd ho (List.not_mem_nil _)
    · intro n hn
      rcases applyOps_nodes_src (speciesOps d) hn with ⟨m, hm, hk, hy, _⟩ | ⟨k, key, ph, hin, hk, hy, _⟩
      · exact Or.inl ⟨m, hm, hk, hy⟩
      · refine Or.inr ?_
        rcases List.mem_cons.mp hin with heq | hin
        · injection heq with e1 e2 e3
          exact ⟨hk.trans e1, hy.trans e2⟩
        rcases List.mem_cons.mp hin with heq | hin
        · cases heq
        rcases List.mem_cons.mp hin with heq | hin
        · cases heq
        · exact absurd hin (List.not_mem_nil _)
  · intro d s h
    unfold CREATE_PERSON_QUERY
    rw [h]

/-- Witness for the amended C3: the Droid species document (null homeworld)
creates no relationship, and the null-homeworld person document aborts. -/
theorem C3_null_reference_amended_witness :
    wStoreSpecies.rels = emptyStore.rels ∧
      CREATE_PERSON_QUERY wPersonNull emptyStore = none :=
  ⟨(C3_null_reference_amended.1 wSpecies emptyStore wStoreSpecies (by decide)).1,
   C3_null_reference_amended.2 wPersonNull emptyStore (by decide)⟩

/-! ### Claim C4: comma-joined scalar list fields -/

/-- Counterexample for claim C4.  Cypher `split` does not trim: upserting a
film whose director field is `"George Lucas, Rick Marshall"` creates a
Director tag entity named `" Rick Marshall"` with a leading space, and no
entity named `"Rick Marshall"`; the claim's "never a tag entity whose name
carries leading/trailing whitespace" is false (the notebook's own cell-39
output shows such keys, e.g. `' forests'`). -/
theorem C4_untrimmed_counterexample :
    CREATE_MOVIE_QUERY wFilmC4 emptyStore = some wStoreC4 ∧
      nodePresent wStoreC4 .Director " Rick Marshall" = true ∧
      nodePresent wStoreC4 .Director "Rick Marshall" = false := by decide

/-! ### Claim C9: the sample person scenario -/

/-- Counterexample for claim C9.  The notebook's sample person document for
`people/1` (cell-7) also lists species `species/1` and vehicles
`vehicles/14`, `vehicles/30`, so its upsert into the empty store yields
seven entities — the four the claim lists plus one Species stub and two
Vehicle stubs — not "exactly" a person, a planet and two starships. -/
theorem C9_sample_person_counterexample :
    upsert wDocC1 emptyStore = some wStoreC1 ∧
      wStoreC1.nodes.length = 7 ∧
      stubB wStoreC1 .Species "species/1" = true ∧
      stubB wStoreC1 .Vehicle "vehicles/14" = true := by decide

set_option maxRecDepth 4000 in
/-- Claim C9, amended: upserting the sample person document for `people/1`
into the empty store yields one hydrated Person at `people/1`, one
unhydrated Planet stub at `planets/1` with an IS_FROM edge from the
person, two unhydrated Starship stubs with PILOTS edges from the person —
and additionally one unhydrated Species stub with an IS_SPECIES edge and
two unhydrated Vehicle stubs with PILOTS edges (seven entities, six
relationships in total); re-upserting the identical document changes
nothing. -/
theorem C9_sample_person_amended :
    upsert wDocC1 emptyStore = some wStoreC1 ∧
      hydratedB wStoreC1 .Person "people/1" = true ∧
      stubB wStoreC1 .Planet "planets/1" = true ∧
      (⟨.Person, "people/1", .IS_FROM, .Planet, "planets/1"⟩ : Rel)
        ∈ wStoreC1.rels ∧
      stubB wStoreC1 .Starship "starships/12" = true ∧
      stubB wStoreC1 .Starship "starships/22" = true ∧
      (⟨.Person, "people/1", .PILOTS, .Starship, "starships/12"⟩ : Rel)
        ∈ wStoreC1.rels ∧
      (⟨.Person, "people/1", .PILOTS, .Starship, "starships/22"⟩ : Rel)
        ∈ wStoreC1.rels ∧
      stubB wStoreC1 .Species "species/1" = true ∧
      (⟨.Person, "people/1", .IS_SPECIES, .Species, "species/1"⟩ : Rel)
        ∈ wStoreC1.rels ∧
      stubB wStoreC1 .Vehicle "vehicles/14" = true ∧
      stubB wStoreC1 .Vehicle "vehicles/30" = true ∧
      (⟨.Person, "people/1", .PILOTS, .Vehicle, "vehicles/14"⟩ : Rel)
        ∈ wStoreC1.rels ∧
      (⟨.Person, "people/1", .PILOTS, .Vehicle, "vehicles/30"⟩ : Rel)
        ∈ wStoreC1.rels ∧
      wStoreC1.nodes.length = 7 ∧ wStoreC1.rels.length = 6 ∧
      upsert wDocC1 wStoreC1 = some wStoreC1 := by decide

/-! ### Claim C10: the frame of person and species upserts -/

theorem rel_mem_linkOps {r : Rel} {tk : Kind} {ph : Bool} {mk : String → Rel}
    {keys : List String} (h : Op.rel r ∈ linkOps tk ph mk keys) :
    ∃ key ∈ keys, r = mk key := by
  rcases List.mem_flatMap.mp h with ⟨x, hx, hox⟩
  rcases List.mem_cons.mp hox with h1 | h1
  · exact Op.noConfusion h1
  · simp only [List.mem_singleton] at h1
    refine ⟨x, hx, ?_⟩
    injection h1

theorem rel_mem_personOps {r : Rel} {d : PersonDoc} {hw : String}
    (h : Op.rel r ∈ personOps d hw) :
    r.rtype = .IS_FROM ∨ r.rtype = .IS_SPECIES ∨ r.rtype = .PILOTS := by
  rcases List.mem_cons.mp h with heq | h
  · exact Op.noConfusion heq
  rcases List.mem_cons.mp h with heq | h
  · exact Op.noConfusion heq
  rcases List.mem_cons.mp h with heq | h
  · exact Op.noConfusion heq
  rcases List.mem_cons.mp h with heq | h
  · exact Op.noConfusion heq
  rcases List.mem_cons.mp h with heq | h
  · injection heq with h2
    rw [h2]
    exact Or.inl rfl
  have h3 : Op.rel r ∈ (if d.species.isEmpty = true then ([] : List Op) else
      stubOps .Species (fun k => ⟨.Person, d.url, .IS_SPECIES, .Species, k⟩)
        d.species
      ++ (if d.starships.isEmpty = true then [] else
        stubOps .Starship (fun k => ⟨.Person, d.url, .PILOTS, .Starship, k⟩)
          d.starships
        ++ (if d.vehicles.isEmpty = true then [] else
          stubOps .Vehicle (fun k => ⟨.Person, d.url, .PILOTS, .Vehicle, k⟩)
            d.vehicles))) := h
  clear h
  by_cases hs : d.species.isEmpty = true
  · rw [if_pos hs] at h3
    exact absurd h3 (List.not_mem_nil _)
  rw [if_neg hs] at h3
  rcases List.mem_append.mp h3 with h | h
  · rcases rel_mem_linkOps h with ⟨key, _, hr⟩
    rw [hr]
    exact Or.inr (Or.inl rfl)
  by_cases ht : d.starships.isEmpty = true
  · rw [if_pos ht] at h
    exact absurd h (List.not_mem_nil _)
  rw [if_neg ht] at h
  rcases List.mem_append.mp h with h | h
  · rcases rel_mem_linkOps h with ⟨key, _, hr⟩
    rw [hr]
    exact Or.inr (Or.inr rfl)
  by_cases hv : d.vehicles.isEmpty = true
  · rw [if_pos hv] at h
    exact absurd h (List.not_mem_nil _)
  rw [if_neg hv] at h
  rcases rel_mem_linkOps h with ⟨key, _, hr⟩
  rw [hr]
  exact Or.inr (Or.inr rfl)

/-- Claim C10: CREATE_PERSON_QUERY never reads the `films` field of a
person document, and CREATE_SPECIES_QUERY never reads `homeworld`,
`people` or `films`; a person upsert only ever creates IS_FROM, IS_SPECIES
and PILOTS relationships and a species upsert creates none, so APPEARS_IN
edges can only come from film upserts and IS_SPECIES edges only from
person upserts. -/
theorem C10_frame_person_species :
    (∀ (d : PersonDoc) (fs : List String) (s : Store),
      CREATE_PERSON_QUERY { d with films := fs } s = CREATE_PERSON_QUERY d s) ∧
    (∀ (d : SpeciesDoc) (hw : Option String) (ps fs : List String) (s : Store),
      CREATE_SPECIES_QUERY { d with homeworld := hw, people := ps, films := fs } s
        = CREATE_SPECIES_QUERY d s) ∧
    (∀ (d : PersonDoc) (s s2 : Store), CREATE_PERSON_QUERY d s = some s2 →
      ∀ r ∈ s2.rels, r ∈ s.rels ∨
        r.rtype = .IS_FROM ∨ r.rtype = .IS_SPECIES ∨ r.rtype = .PILOTS) ∧
    (∀ (d : SpeciesDoc) (s s2 : Store), CREATE_SPECIES_QUERY d s = some s2 →
      s2.rels = s.rels) := by
  refine ⟨fun d fs s => rfl, fun d hw ps fs s => rfl, ?_, ?_⟩
  · intro d s s2 h
    cases hhw : d.homeworld with
    | none =>
      unfold CREATE_PERSON_QUERY at h
      rw [hhw] at h
      cases h
    | some hw =>
      have h2 : applyOps (personOps d hw) s = s2 := by
        unfold CREATE_PERSON_QUERY at h
        rw [hhw] at h
        simpa using h
      subst h2
      intro r hr
      rcases applyOps_rels_src (personOps d hw) hr with h3 | h3
      · exact Or.inl h3
      · exact Or.inr (rel_mem_personOps h3)
  · intro d s s2 h
    have h2 : applyOps (speciesOps d) s = s2 := by
      simpa [CREATE_SPECIES_QUERY] using h
    subst h2
    apply applyOps_rels_eq
    intro o ho
    rcases List.mem_cons.mp ho with rfl | ho
    · trivial
    rcases List.mem_cons.mp ho with rfl | ho
    · trivial
    rcases List.mem_cons.mp ho with rfl | ho
    · trivial
    exact absurd ho (List.not_mem_nil _)

/-- Witness for C10: the sample person with an altered films list upserts
to the same store; its IS_FROM edge satisfies the relationship frame, and
the Droid species upsert leaves the relationships untouched. -/
theorem C10_frame_person_species_witness :
    CREATE_PERSON_QUERY { wPerson with films := ["films/9"] } emptyStore
        = CREATE_PERSON_QUERY wPerson emptyStore ∧
      ((⟨.Person, "people/1", .IS_FROM, .Planet, "planets/1"⟩ : Rel)
          ∈ emptyStore.rels ∨
        (⟨.Person, "people/1", .IS_FROM, .Planet, "planets/1"⟩ : Rel).rtype
          = .IS_FROM ∨
        (⟨.Person, "people/1", .IS_FROM, .Planet, "planets/1"⟩ : Rel).rtype
          = .IS_SPECIES ∨
        (⟨.Person, "people/1", .IS_FROM, .Planet, "planets/1"⟩ : Rel).rtype
          = .PILOTS) ∧
      wStoreSpecies.rels = emptyStore.rels := by
  refine ⟨C10_frame_person_species.1 wPerson ["films/9"] emptyStore, ?_, ?_⟩
  · exact C10_frame_person_species.2.2.1 wPerson emptyStore wStoreC1 (by decide)
      ⟨.Person, "people/1", .IS_FROM, .Planet, "planets/1"⟩ (by decide)
  · exact C10_frame_person_species.2.2.2 wSpecies emptyStore wStoreSpecies
      (by decide)

/-! ### Claim C5: the drain loop and per-entity failures -/

/-- Counterexample for claim C5.  The crawl loop of cell-35 has no error
handling at all (the notebook's cell-40 TODO admits it): when the fetch of
the selected Person stub raises, the exception escapes the loop and the
whole drain aborts — there is no retry, no backoff and no failed marking. -/
theorem C5_crash_counterexample :
    crawl (fun _ _ => none) 5 wCrashStore = .Crashed wCrashStore := by decide

/-- Claim C5, amended: the drain loop contains no per-entity failure
handling.  Whenever a placeholder is selected, a fetch failure, an unknown
label (`getQueryForLabel` raises ValueError) or a query error (e.g. a
Person document with a null homeworld) immediately aborts the entire loop
in the `Crashed` state; the loop proceeds only while every step succeeds. -/
theorem C5_crawl_no_retry_amended :
    (∀ (fetch : Kind → String → Option Doc) (fuel : Nat) (s : Store)
      (p : Node) (rest : List Node), placeholders s = p :: rest →
      fetch p.kind p.key = none → crawl fetch (fuel + 1) s = .Crashed s) ∧
    (∀ (fetch : Kind → String → Option Doc) (fuel : Nat) (s : Store)
      (p : Node) (rest : List Node) (d : Doc), placeholders s = p :: rest →
      fetch p.kind p.key = some d → getQueryForLabel p.kind = none →
      crawl fetch (fuel + 1) s = .Crashed s) ∧
    (∀ (fetch : Kind → String → Option Doc) (fuel : Nat) (s : Store)
      (p : Node) (rest : List Node) (d : Doc) (q : QueryTag),
      placeholders s = p :: rest → fetch p.kind p.key = some d →
      getQueryForLabel p.kind = some q → runQuery q d s = none →
      crawl fetch (fuel + 1) s = .Crashed s) := by
  refine ⟨?_, ?_, ?_⟩
  · intro fetch fuel s p rest hp hf
    show crawl fetch (Nat.succ fuel) s = .Crashed s
    unfold crawl
    rw [hp]
    simp only [hf]
  · intro fetch fuel s p rest d hp hf hq
    show crawl fetch (Nat.succ fuel) s = .Crashed s
    unfold crawl
    rw [hp]
    simp only [hf, hq]
  · intro fetch fuel s p rest d q hp hf hq hr
    show crawl fetch (Nat.succ fuel) s = .Crashed s
    unfold crawl
    rw [hp]
    simp only [hf, hq, hr]

/-- Witness for the amended C5: the store with a single Person stub and an
always-failing fetch crashes the loop. -/
theorem C5_crawl_no_retry_amended_witness :
    crawl (fun _ _ => none) 4 wCrashStore = .Crashed wCrashStore :=
  C5_crawl_no_retry_amended.1 (fun _ _ => none) 3 wCrashStore
    ⟨.Person, "people/4", true, []⟩ [] (by decide) rfl

/-! ### Characterizing the merge clauses of each query -/

theorem merge_mem_linkOps {k : Kind} {key : String} {ph2 : Bool} {tk : Kind}
    {ph : Bool} {mk : String → Rel} {keys : List String}
    (h : Op.merge k key ph2 ∈ linkOps tk ph mk keys) :
    k = tk ∧ key ∈ keys ∧ ph2 = ph := by
  rcases List.mem_flatMap.mp h with ⟨x, hx, hox⟩
  rcases List.mem_cons.mp hox with h1 | h1
  · injection h1 with e1 e2 e3
    exact ⟨e1, e2 ▸ hx, e3⟩
  · simp only [List.mem_singleton] at h1
    exact Op.noConfusion h1

theorem merge_mem_personOps {k : Kind} {key : String} {ph : Bool}
    {d : PersonDoc} {hw : String} (h : Op.merge k key ph ∈ personOps d hw)
    (hhw : d.homeworld = some hw) :
    ((k, key) = docSubject (.person d) ∧ ph = false) ∨
    ((k, key) ∈ docStubRefs (.person d) ∧ ph = true) ∨
    ((k, key) ∈ docTagRefs (.person d) ∧ ph = false) := by
  rcases List.mem_cons.mp h with heq | h
  · injection heq with e1 e2 e3
    exact Or.inl ⟨by rw [e1, e2]; rfl, e3⟩
  rcases List.mem_cons.mp h with heq | h
  · exact Op.noConfusion heq
  rcases List.mem_cons.mp h with heq | h
  · exact Op.noConfusion heq
  rcases List.mem_cons.mp h with heq | h
  · injection heq with e1 e2 e3
    refine Or.inr (Or.inl ⟨?_, e3⟩)
    simp only [docStubRefs, hhw, List.mem_append]
    exact Or.inl (Or.inl (Or.inl (by simp [e1, e2])))
  rcases List.mem_cons.mp h with heq | h
  · exact Op.noConfusion heq
  have h3 : Op.merge k key ph ∈ (if d.species.isEmpty = true then ([] : List Op) else
      stubOps .Species (fun v => ⟨.Person, d.url, .IS_SPECIES, .Species, v⟩)
        d.species
      ++ (if d.starships.isEmpty = true then [] else
        stubOps .Starship (fun v => ⟨.Person, d.url, .PILOTS, .Starship, v⟩)
          d.starships
        ++ (if d.vehicles.isEmpty = true then [] else
          stubOps .Vehicle (fun v => ⟨.Person, d.url, .PILOTS, .Vehicle, v⟩)
            d.vehicles))) := h
  clear h
  by_cases hs : d.species.isEmpty = true
  · rw [if_pos hs] at h3
    exact absurd h3 (List.not_mem_nil _)
  rw [if_neg hs] at h3
  rcases List.mem_append.mp h3 with h | h
  · rcases merge_mem_linkOps h with ⟨e1, e2, e3⟩
    refine Or.inr (Or.inl ⟨?_, e3⟩)
    simp only [docStubRefs, hhw, List.mem_append]
    exact Or.inl (Or.inl (Or.inr (List.mem_map.mpr ⟨key, e2, by rw [e1]⟩)))
  by_cases ht : d.starships.isEmpty = true
  · rw [if_pos ht] at h
    exact absurd h (List.not_mem_nil _)
  rw [if_neg ht] at h
  rcases List.mem_append.mp h with h | h
  · rcases merge_mem_linkOps h with ⟨e1, e2, e3⟩
    refine Or.inr (Or.inl ⟨?_, e3⟩)
    simp only [docStubRefs, hhw, List.mem_append]
    exact Or.inl (Or.inr (List.mem_map.mpr ⟨key, e2, by rw [e1]⟩))
  by_cases hv : d.vehicles.isEmpty = true
  · rw [if_pos hv] at h
    exact absurd h (List.not_mem_nil _)
  rw [if_neg hv] at h
  rcases merge_mem_linkOps h with ⟨e1, e2, e3⟩
  refine Or.inr (Or.inl ⟨?_, e3⟩)
  simp only [docStubRefs, hhw, List.mem_append]
  exact Or.inr (List.mem_map.mpr ⟨key, e2, by rw [e1]⟩)

theorem merge_mem_filmOps {k : Kind} {key : String} {ph : Bool}
    {d : FilmDoc} (h : Op.merge k key ph ∈ filmOps d) :
    ((k, key) = docSubject (.film d) ∧ ph = false) ∨
    ((k, key) ∈ docStubRefs (.film d) ∧ ph = true) ∨
    ((k, key) ∈ docTagRefs (.film d) ∧ ph = false) := by
  rcases List.mem_cons.mp h with heq | h
  · injection heq with e1 e2 e3
    exact Or.inl ⟨by rw [e1, e2]; rfl, e3⟩
  rcases List.mem_cons.mp h with heq | h
  · exact Op.noConfusion heq
  have h3 : Op.merge k key ph ∈
      (tagOps .Director (fun v => ⟨.Film, d.url, .DIRECTED_BY, .Director, v⟩)
        (splitComma d.director)
      ++ tagOps .Producer (fun v => ⟨.Film, d.url, .PRODUCED_BY, .Producer, v⟩)
        (splitComma d.producer))
      ++ (if d.characters.isEmpty = true then ([] : List Op) else
        stubOps .Person (fun v => ⟨.Person, v, .APPEARS_IN, .Film, d.url⟩)
          d.characters
        ++ (if d.planets.isEmpty = true then [] else
          stubOps .Planet (fun v => ⟨.Film, d.url, .TAKES_PLACE_ON, .Planet, v⟩)
            d.planets
          ++ (if d.species.isEmpty = true then [] else
            stubOps .Species (fun v => ⟨.Species, v, .APPEARS_IN, .Film, d.url⟩)
              d.species
            ++ (if d.starships.isEmpty = true then [] else
              stubOps .Starship
                (fun v => ⟨.Starship, v, .APPEARS_IN, .Film, d.url⟩)
                d.starships
              ++ (if d.vehicles.isEmpty = true then [] else
                stubOps .Vehicle
                  (fun v => ⟨.Vehicle, v, .APPEARS_IN, .Film, d.url⟩)
                  d.vehicles))))) := h
  clear h
  rcases List.mem_append.mp h3 with h | h
  · rcases List.mem_append.mp h with h | h
    · rcases merge_mem_linkOps h with ⟨e1, e2, e3⟩
      refine Or.inr (Or.inr ⟨?_, e3⟩)
      simp only [docTagRefs, List.mem_append]
      exact Or.inl (List.mem_map.mpr ⟨key, e2, by rw [e1]⟩)
    · rcases merge_mem_linkOps h with ⟨e1, e2, e3⟩
      refine Or.inr (Or.inr ⟨?_, e3⟩)
      simp only [docTagRefs, List.mem_append]
      exact Or.inr (List.mem_map.mpr ⟨key, e2, by rw [e1]⟩)
  by_cases hc : d.characters.isEmpty = true
  · rw [if_pos hc] at h
    exact absurd h (List.not_mem_nil _)
  rw [if_neg hc] at h
  rcases List.mem_append.mp h with h | h
  · rcases merge_mem_linkOps h with ⟨e1, e2, e3⟩
    refine Or.inr (Or.inl ⟨?_, e3⟩)
    simp only [docStubRefs, List.mem_append]
    exact Or.inl (Or.inl (Or.inl (Or.inl (List.mem_map.mpr ⟨key, e2, by rw [e1]⟩))))
  by_cases hp : d.planets.isEmpty = true
  · rw [if_pos hp] at h
    exact absurd h (List.not_mem_nil _)
  rw [if_neg hp] at h
  rcases List.mem_append.mp h with h | h
  · rcases merge_mem_linkOps h with ⟨e1, e2, e3⟩
    refine Or.inr (Or.inl ⟨?_, e3⟩)
    simp only [docStubRefs, List.mem_append]
    exact Or.inl (Or.inl (Or.inl (Or.inr (List.mem_map.mpr ⟨key, e2, by rw [e1]⟩))))
  by_cases hs : d.species.isEmpty = true
  · rw [if_pos hs] at h
    exact absurd h (List.not_mem_nil _)
  rw [if_neg hs] at h
  rcases List.mem_append.mp h with h | h
  · rcases merge_mem_linkOps h with ⟨e1, e2, e3⟩
    refine Or.inr (Or.inl ⟨?_, e3⟩)
    simp only [docStubRefs, List.mem_append]
    exact Or.inl (Or.inl (Or.inr (List.mem_map.mpr ⟨key, e2, by rw [e1]⟩)))
  by_cases ht : d.starships.isEmpty = true
  · rw [if_pos ht] at h
    exact absurd h (List.not_mem_nil _)
  rw [if_neg ht] at h
  rcases List.mem_append.mp h with h | h
  · rcases merge_mem_linkOps h with ⟨e1, e2, e3⟩
    refine Or.inr (Or.inl ⟨?_, e3⟩)
    simp only [docStubRefs, List.mem_append]
    exact Or.inl (Or.inr (List.mem_map.mpr ⟨key, e2, by rw [e1]⟩))
  by_cases hv : d.vehicles.isEmpty = true
  · rw [if_pos hv] at h
    exact absurd h (List.not_mem_nil _)
  rw [if_neg hv] at h
  rcases merge_mem_linkOps h with ⟨e1, e2, e3⟩
  refine Or.inr (Or.inl ⟨?_, e3⟩)
  simp only [docStubRefs, List.mem_append]
  exact Or.inr (List.mem_map.mpr ⟨key, e2, by rw [e1]⟩)

theorem merge_mem_planetOps {k : Kind} {key : String} {ph : Bool}
    {d : PlanetDoc} (h : Op.merge k key ph ∈ planetOps d) :
    ((k, key) = docSubject (.planet d) ∧ ph = false) ∨
    ((k, key) ∈ docStubRefs (.planet d) ∧ ph = true) ∨
    ((k, key) ∈ docTagRefs (.planet d) ∧ ph = false) := by
  rcases List.mem_cons.mp h with heq | h
  · injection heq with e1 e2 e3
    exact Or.inl ⟨by rw [e1, e2]; rfl, e3⟩
  rcases List.mem_cons.mp h with heq | h
  · exact Op.noConfusion heq
  rcases List.mem_cons.mp h with heq | h
  · exact Op.noConfusion heq
  rcases List.mem_append.mp h with h | h
  · rcases merge_mem_linkOps h with ⟨e1, e2, e3⟩
    refine Or.inr (Or.inr ⟨?_, e3⟩)
    simp only [docTagRefs, List.mem_append]
    exact Or.inl (List.mem_map.mpr ⟨key, e2, by rw [e1]⟩)
  · rcases merge_mem_linkOps h with ⟨e1, e2, e3⟩
    refine Or.inr (Or.inr ⟨?_, e3⟩)
    simp only [docTagRefs, List.mem_append]
    exact Or.inr (List.mem_map.mpr ⟨key, e2, by rw [e1]⟩)

theorem merge_mem_speciesOps {k : Kind} {key : String} {ph : Bool}
    {d : SpeciesDoc} (h : Op.merge k key ph ∈ speciesOps d) :
    ((k, key) = docSubject (.species d) ∧ ph = false) ∨
    ((k, key) ∈ docStubRefs (.species d) ∧ ph = true) ∨
    ((k, key) ∈ docTagRefs (.species d) ∧ ph = false) := by
  rcases List.mem_cons.mp h with heq | h
  · injection heq with e1 e2 e3
    exact Or.inl ⟨by rw [e1, e2]; rfl, e3⟩
  rcases List.mem_cons.mp h with heq | h
  · exact Op.noConfusion heq
  rcases List.mem_cons.mp h with heq | h
  · exact Op.noConfusion heq
  exact absurd h (List.not_mem_nil _)

theorem merge_mem_starshipOps {k : Kind} {key : String} {ph : Bool}
    {d : StarshipDoc} (h : Op.merge k key ph ∈ starshipOps d) :
    ((k, key) = docSubject (.starship d) ∧ ph = false) ∨
    ((k, key) ∈ docStubRefs (.starship d) ∧ ph = true) ∨
    ((k, key) ∈ docTagRefs (.starship d) ∧ ph = false) := by
  rcases List.mem_cons.mp h with heq | h
  · injection heq with e1 e2 e3
    exact Or.inl ⟨by rw [e1, e2]; rfl, e3⟩
  rcases List.mem_cons.mp h with heq | h
  · exact Op.noConfusion heq
  rcases List.mem_cons.mp h with heq | h
  · exact Op.noConfusion heq
  rcases List.mem_append.mp h with h | h
  · rcases merge_mem_linkOps h with ⟨e1, e2, e3⟩
    refine Or.inr (Or.inr ⟨?_, e3⟩)
    simp only [List.mem_singleton] at e2
    simp [docTagRefs, e1, e2]
  · rcases merge_mem_linkOps h with ⟨e1, e2, e3⟩
    refine Or.inr (Or.inr ⟨?_, e3⟩)
    simp only [List.mem_singleton] at e2
    simp [docTagRefs, e1, e2]

theorem merge_mem_vehicleOps {k : Kind} {key : String} {ph : Bool}
    {d : VehicleDoc} (h : Op.merge k key ph ∈ vehicleOps d) :
    ((k, key) = docSubject (.vehicle d) ∧ ph = false) ∨
    ((k, key) ∈ docStubRefs (.vehicle d) ∧ ph = true) ∨
    ((k, key) ∈ docTagRefs (.vehicle d) ∧ ph = false) := by
  rcases List.mem_cons.mp h with heq | h
  · injection heq with e1 e2 e3
    exact Or.inl ⟨by rw [e1, e2]; rfl, e3⟩
  rcases List.mem_cons.mp h with heq | h
  · exact Op.noConfusion heq
  rcases List.mem_cons.mp h with heq | h
  · exact Op.noConfusion heq
  rcases List.mem_append.mp h with h | h
  · rcases merge_mem_linkOps h with ⟨e1, e2, e3⟩
    refine Or.inr (Or.inr ⟨?_, e3⟩)
    simp only [List.mem_singleton] at e2
    simp [docTagRefs, e1, e2]
  · rcases merge_mem_linkOps h with ⟨e1, e2, e3⟩
    refine Or.inr (Or.inr ⟨?_, e3⟩)
    simp only [List.mem_singleton] at e2
    simp [docTagRefs, e1, e2]

/-- Every merge clause of a query either merges the subject (without a
Placeholder), a url stub (with `ON CREATE SET :Placeholder`), or a tag
node keyed by a scalar value (without a Placeholder). -/
theorem merge_mem_docOps {d : Doc} {ops : List Op} {k : Kind} {key : String}
    {ph : Bool} (hops : docOps d = some ops)
    (h : Op.merge k key ph ∈ ops) :
    ((k, key) = docSubject d ∧ ph = false) ∨
    ((k, key) ∈ docStubRefs d ∧ ph = true) ∨
    ((k, key) ∈ docTagRefs d ∧ ph = false) := by
  cases d with
  | person d =>
    cases hhw : d.homeworld with
    | none => simp [docOps, hhw] at hops
    | some hw =>
      have h2 : personOps d hw = ops := by simpa [docOps, hhw] using hops
      exact merge_mem_personOps (h2 ▸ h) hhw
  | film d =>
    have h2 : filmOps d = ops := by simpa [docOps] using hops
    exact merge_mem_filmOps (h2 ▸ h)
  | planet d =>
    have h2 : planetOps d = ops := by simpa [docOps] using hops
    exact merge_mem_planetOps (h2 ▸ h)
  | species d =>
    have h2 : speciesOps d = ops := by simpa [docOps] using hops
    exact merge_mem_speciesOps (h2 ▸ h)
  | starship d =>
    have h2 : starshipOps d = ops := by simpa [docOps] using hops
    exact merge_mem_starshipOps (h2 ▸ h)
  | vehicle d =>
    have h2 : vehicleOps d = ops := by simpa [docOps] using hops
    exact merge_mem_vehicleOps (h2 ▸ h)

/-- Stub targets always carry one of the five fetchable kinds, never a tag
kind. -/
theorem stubRefs_fetchable (d : Doc) :
    ∀ x ∈ docStubRefs d, fetchable x.1 = true ∧ isTag x.1 = false := by
  intro x hx
  cases d with
  | person d =>
    cases hhw : d.homeworld with
    | none =>
      simp only [docStubRefs, hhw, List.mem_append, List.mem_map] at hx
      rcases hx with ((h | ⟨v, _, hv⟩) | ⟨v, _, hv⟩) | ⟨v, _, hv⟩
      · exact absurd h (List.not_mem_nil _)
      all_goals rw [← hv]; exact ⟨rfl, rfl⟩
    | some hw =>
      simp only [docStubRefs, hhw, List.mem_append, List.mem_map,
        List.mem_singleton] at hx
      rcases hx with ((h | ⟨v, _, hv⟩) | ⟨v, _, hv⟩) | ⟨v, _, hv⟩
      · rw [h]; exact ⟨rfl, rfl⟩
      all_goals rw [← hv]; exact ⟨rfl, rfl⟩
  | film d =>
    simp only [docStubRefs, List.mem_append, List.mem_map] at hx
    rcases hx with (((⟨v, _, hv⟩ | ⟨v, _, hv⟩) | ⟨v, _, hv⟩) | ⟨v, _, hv⟩) | ⟨v, _, hv⟩ <;>
      (rw [← hv]; exact ⟨rfl, rfl⟩)
  | planet d => exact absurd hx (List.not_mem_nil _)
  | species d => exact absurd hx (List.not_mem_nil _)
  | starship d => exact absurd hx (List.not_mem_nil _)
  | vehicle d => exact absurd hx (List.not_mem_nil _)

/-- The subject of a query is never a tag kind. -/
theorem subject_not_tag (d : Doc) : isTag (docSubject d).1 = false := by
  cases d <;> rfl

/-- The kinds in `docTagRefs` are exactly tag kinds. -/
theorem tagRefs_tag (d : Doc) : ∀ x ∈ docTagRefs d, isTag x.1 = true := by
  intro x hx
  cases d with
  | person d => exact absurd hx (List.not_mem_nil _)
  | film d =>
    simp only [docTagRefs, List.mem_append, List.mem_map] at hx
    rcases hx with ⟨v, _, hv⟩ | ⟨v, _, hv⟩ <;> (rw [← hv]; rfl)
  | planet d =>
    simp only [docTagRefs, List.mem_append, List.mem_map] at hx
    rcases hx with ⟨v, _, hv⟩ | ⟨v, _, hv⟩ <;> (rw [← hv]; rfl)
  | species d => exact absurd hx (List.not_mem_nil _)
  | starship d =>
    rcases List.mem_cons.mp hx with h | h
    · rw [h]; rfl
    · simp only [List.mem_singleton] at h
      rw [h]; rfl
  | vehicle d =>
    rcases List.mem_cons.mp hx with h | h
    · rw [h]; rfl
    · simp only [List.mem_singleton] at h
      rw [h]; rfl

/-- A merge clause anywhere in the list makes the key present in the final
store. -/
theorem applyOps_present_est :
    ∀ (ops : List Op) {s : Store} {k : Kind} {key : String} {ph : Bool},
      Op.merge k key ph ∈ ops → PresentP k key (applyOps ops s)
  | [], _, _, _, _, h => absurd h (List.not_mem_nil _)
  | o :: ops, s, k, key, ph, h => by
    rw [applyOps_cons]
    rcases List.mem_cons.mp h with heq | h2
    · rw [← heq]
      exact presentP_applyOps ops (mergeNode_present k key ph s)
    · exact applyOps_present_est ops h2

/-- A relationship clause anywhere in the list makes the edge exist in the
final store. -/
theorem applyOps_rels_est :
    ∀ (ops : List Op) {s : Store} {r : Rel},
      Op.rel r ∈ ops → r ∈ (applyOps ops s).rels
  | [], _, _, h => absurd h (List.not_mem_nil _)
  | o :: ops, s, r, h => by
    rw [applyOps_cons]
    rcases List.mem_cons.mp h with heq | h2
    · rw [← heq]
      exact applyOps_rels_mono ops (ensureRel_est r s)
    · exact applyOps_rels_est ops h2

/-- `CREATE UNIQUE` never duplicates an edge: the relationship list stays
duplicate-free. -/
theorem applyOp_rels_nodup (o : Op) {s : Store} (h : s.rels.Nodup) :
    (applyOp o s).rels.Nodup := by
  cases o with
  | merge k key ph =>
    simp only [applyOp, mergeNode]
    split <;> exact h
  | set k key kvs => exact h
  | removePh k key => exact h
  | rel r =>
    simp only [applyOp, ensureRel]
    split
    · exact h
    · rename_i hc
      have hnotmem : r ∉ s.rels := fun hm =>
        hc (by simp [List.contains, List.elem_iff, hm])
      refine List.nodup_append.mpr ⟨h, List.nodup_singleton r, ?_⟩
      intro a ha hb
      simp only [List.mem_singleton] at hb
      exact hnotmem (hb ▸ ha)

theorem applyOps_rels_nodup :
    ∀ (ops : List Op) {s : Store}, s.rels.Nodup →
      (applyOps ops s).rels.Nodup
  | [], _, h => h
  | o :: ops, _, h => applyOps_rels_nodup ops (applyOp_rels_nodup o h)

theorem mem_linkOps_merge {tk : Kind} {ph : Bool} {mk : String → Rel}
    {keys : List String} {v : String} (hv : v ∈ keys) :
    Op.merge tk v ph ∈ linkOps tk ph mk keys :=
  List.mem_flatMap.mpr ⟨v, hv, List.mem_cons_self _ _⟩

theorem mem_linkOps_rel {tk : Kind} {ph : Bool} {mk : String → Rel}
    {keys : List String} {v : String} (hv : v ∈ keys) :
    Op.rel (mk v) ∈ linkOps tk ph mk keys :=
  List.mem_flatMap.mpr ⟨v, hv, List.mem_cons_of_mem _ (List.mem_cons_self _ _)⟩

theorem person_sub1 {d : PersonDoc} {hw : String}
    (h1 : d.species.isEmpty = false) :
    ∀ o ∈ stubOps .Species
      (fun k => ⟨.Person, d.url, .IS_SPECIES, .Species, k⟩) d.species,
      o ∈ personOps d hw := by
  intro o ho
  unfold personOps
  refine List.mem_append.mpr (Or.inr ?_)
  rw [if_neg (by simp [h1])]
  exact List.mem_append.mpr (Or.inl ho)

theorem person_sub2 {d : PersonDoc} {hw : String}
    (h1 : d.species.isEmpty = false) (h2 : d.starships.isEmpty = false) :
    ∀ o ∈ stubOps .Starship
      (fun k => ⟨.Person, d.url, .PILOTS, .Starship, k⟩) d.starships,
      o ∈ personOps d hw := by
  intro o ho
  unfold personOps
  refine List.mem_append.mpr (Or.inr ?_)
  rw [if_neg (by simp [h1])]
  refine List.mem_append.mpr (Or.inr ?_)
  rw [if_neg (by simp [h2])]
  exact List.mem_append.mpr (Or.inl ho)

theorem person_sub3 {d : PersonDoc} {hw : String}
    (h1 : d.species.isEmpty = false) (h2 : d.starships.isEmpty = false)
    (h3 : d.vehicles.isEmpty = false) :
    ∀ o ∈ stubOps .Vehicle
      (fun k => ⟨.Person, d.url, .PILOTS, .Vehicle, k⟩) d.vehicles,
      o ∈ personOps d hw := by
  intro o ho
  unfold personOps
  refine List.mem_append.mpr (Or.inr ?_)
  rw [if_neg (by simp [h1])]
  refine List.mem_append.mpr (Or.inr ?_)
  rw [if_neg (by simp [h2])]
  refine List.mem_append.mpr (Or.inr ?_)
  rw [if_neg (by simp [h3])]
  exact ho

theorem person_head_merge {d : PersonDoc} {hw : String} :
    Op.merge .Person d.url false ∈ personOps d hw :=
  List.mem_cons_self _ _

theorem person_planet_merge {d : PersonDoc} {hw : String} :
    Op.merge .Planet hw true ∈ personOps d hw :=
  List.mem_cons_of_mem _ (List.mem_cons_of_mem _ (List.mem_cons_of_mem _
    (List.mem_cons_self _ _)))

theorem person_isfrom_rel {d : PersonDoc} {hw : String} :
    Op.rel ⟨.Person, d.url, .IS_FROM, .Planet, hw⟩ ∈ personOps d hw :=
  List.mem_cons_of_mem _ (List.mem_cons_of_mem _ (List.mem_cons_of_mem _
    (List.mem_cons_of_mem _ (List.mem_cons_self _ _))))

theorem film_head_merge {d : FilmDoc} :
    Op.merge .Film d.url false ∈ filmOps d :=
  List.mem_cons_self _ _

theorem film_tag_sub {d : FilmDoc} :
    ∀ o ∈ tagOps .Director
        (fun k => ⟨.Film, d.url, .DIRECTED_BY, .Director, k⟩)
        (splitComma d.director)
      ++ tagOps .Producer
        (fun k => ⟨.Film, d.url, .PRODUCED_BY, .Producer, k⟩)
        (splitComma d.producer), o ∈ filmOps d := by
  intro o ho
  unfold filmOps
  refine List.mem_append.mpr (Or.inl ?_)
  rcases List.mem_append.mp ho with h | h
  · exact List.mem_append.mpr
      (Or.inl (List.mem_append.mpr (Or.inr h)))
  · exact List.mem_append.mpr (Or.inr h)

theorem film_sub1 {d : FilmDoc} (h1 : d.characters.isEmpty = false) :
    ∀ o ∈ stubOps .Person
      (fun k => ⟨.Person, k, .APPEARS_IN, .Film, d.url⟩) d.characters,
      o ∈ filmOps d := by
  intro o ho
  unfold filmOps
  refine List.mem_append.mpr (Or.inr ?_)
  rw [if_neg (by simp [h1])]
  exact List.mem_append.mpr (Or.inl ho)

theorem film_sub2 {d : FilmDoc} (h1 : d.characters.isEmpty = false)
    (h2 : d.planets.isEmpty = false) :
    ∀ o ∈ stubOps .Planet
      (fun k => ⟨.Film, d.url, .TAKES_PLACE_ON, .Planet, k⟩) d.planets,
      o ∈ filmOps d := by
  intro o ho
  unfold filmOps
  refine List.mem_append.mpr (Or.inr ?_)
  rw [if_neg (by simp [h1])]
  refine List.mem_append.mpr (Or.inr ?_)
  rw [if_neg (by simp [h2])]
  exact List.mem_append.mpr (Or.inl ho)

theorem film_sub3 {d : FilmDoc} (h1 : d.characters.isEmpty = false)
    (h2 : d.planets.isEmpty = false) (h3 : d.species.isEmpty = false) :
    ∀ o ∈ stubOps .Species
      (fun k => ⟨.Species, k, .APPEARS_IN, .Film, d.url⟩) d.species,
      o ∈ filmOps d := by
  intro o ho
  unfold filmOps
  refine List.mem_append.mpr (Or.inr ?_)
  rw [if_neg (by simp [h1])]
  refine List.mem_append.mpr (Or.inr ?_)
  rw [if_neg (by simp [h2])]
  refine List.mem_append.mpr (Or.inr ?_)
  rw [if_neg (by simp [h3])]
  exact List.mem_append.mpr (Or.inl ho)

theorem film_sub4 {d : FilmDoc} (h1 : d.characters.isEmpty = false)
    (h2 : d.planets.isEmpty = false) (h3 : d.species.isEmpty = false)
    (h4 : d.starships.isEmpty = false) :
    ∀ o ∈ stubOps .Starship
      (fun k => ⟨.Starship, k, .APPEARS_IN, .Film, d.url⟩) d.starships,
      o ∈ filmOps d := by
  intro o ho
  unfold filmOps
  refine List.mem_append.mpr (Or.inr ?_)
  rw [if_neg (by simp [h1])]
  refine List.mem_append.mpr (Or.inr ?_)
  rw [if_neg (by simp [h2])]
  refine List.mem_append.mpr (Or.inr ?_)
  rw [if_neg (by simp [h3])]
  refine List.mem_append.mpr (Or.inr ?_)
  rw [if_neg (by simp [h4])]
  exact List.mem_append.mpr (Or.inl ho)

theorem film_sub5 {d : FilmDoc} (h1 : d.characters.isEmpty = false)
    (h2 : d.planets.isEmpty = false) (h3 : d.species.isEmpty = false)
    (h4 : d.starships.isEmpty = false) (h5 : d.vehicles.isEmpty = false) :
    ∀ o ∈ stubOps .Vehicle
      (fun k => ⟨.Vehicle, k, .APPEARS_IN, .Film, d.url⟩) d.vehicles,
      o ∈ filmOps d := by
  intro o ho
  unfold filmOps
  refine List.mem_append.mpr (Or.inr ?_)
  rw [if_neg (by simp [h1])]
  refine List.mem_append.mpr (Or.inr ?_)
  rw [if_neg (by simp [h2])]
  refine List.mem_append.mpr (Or.inr ?_)
  rw [if_neg (by simp [h3])]
  refine List.mem_append.mpr (Or.inr ?_)
  rw [if_neg (by simp [h4])]
  refine List.mem_append.mpr (Or.inr ?_)
  rw [if_neg (by simp [h5])]
  exact ho

theorem planet_tag_sub {d : PlanetDoc} :
    ∀ o ∈ tagOps .Climate
        (fun k => ⟨.Planet, d.url, .HAS_CLIMATE, .Climate, k⟩)
        (splitComma d.climate)
      ++ tagOps .Terrain
        (fun k => ⟨.Planet, d.url, .HAS_TERRAIN, .Terrain, k⟩)
        (splitComma d.terrain), o ∈ planetOps d := by
  intro o ho
  unfold planetOps
  rcases List.mem_append.mp ho with h | h
  · exact List.mem_append.mpr
      (Or.inl (List.mem_append.mpr (Or.inr h)))
  · exact List.mem_append.mpr (Or.inr h)

theorem starship_tag_sub {d : StarshipDoc} :
    ∀ o ∈ tagOps .Manufacturer
        (fun k => ⟨.Starship, d.url, .MANUFACTURED_BY, .Manufacturer, k⟩)
        [d.manufacturer]
      ++ tagOps .StarshipClass
        (fun k => ⟨.Starship, d.url, .IS_CLASS, .StarshipClass, k⟩)
        [d.starship_class], o ∈ starshipOps d := by
  intro o ho
  unfold starshipOps
  rcases List.mem_append.mp ho with h | h
  · exact List.mem_append.mpr
      (Or.inl (List.mem_append.mpr (Or.inr h)))
  · exact List.mem_append.mpr (Or.inr h)

theorem vehicle_tag_sub {d : VehicleDoc} :
    ∀ o ∈ tagOps .Manufacturer
        (fun k => ⟨.Vehicle, d.url, .MANUFACTURED_BY, .Manufacturer, k⟩)
        [d.manufacturer]
      ++ tagOps .VehicleClass
        (fun k => ⟨.Vehicle, d.url, .IS_CLASS, .VehicleClass, k⟩)
        [d.vehicle_class], o ∈ vehicleOps d := by
  intro o ho
  unfold vehicleOps
  rcases List.mem_append.mp ho with h | h
  · exact List.mem_append.mpr
      (Or.inl (List.mem_append.mpr (Or.inr h)))
  · exact List.mem_append.mpr (Or.inr h)

/-- When every url-list field is non-empty (so no `UNWIND` halts the
query), every stub and tag target has a merge clause in the query and
every expected relationship has a `CREATE UNIQUE` clause. -/
theorem refs_in_docOps (d : Doc) {ops : List Op} (hops : docOps d = some ops)
    (hne : docListsNonempty d) :
    (∀ x ∈ docStubRefs d ++ docTagRefs d, ∃ ph, Op.merge x.1 x.2 ph ∈ ops) ∧
    (∀ r ∈ docRels d, Op.rel r ∈ ops) := by
  cases d with
  | person d =>
    cases hhw : d.homeworld with
    | none => simp [docOps, hhw] at hops
    | some hw =>
      have h2 : personOps d hw = ops := by simpa [docOps, hhw] using hops
      subst h2
      rcases hne with ⟨h1, h2, h3⟩
      constructor
      · intro x hx
        simp only [docStubRefs, docTagRefs, hhw, List.append_nil,
          List.mem_append, List.mem_map, List.mem_singleton] at hx
        rcases hx with ((hx | ⟨v, hv, hxv⟩) | ⟨v, hv, hxv⟩) | ⟨v, hv, hxv⟩
        · rw [hx]
          exact ⟨true, person_planet_merge⟩
        · rw [← hxv]
          exact ⟨true, person_sub1 h1 _ (mem_linkOps_merge hv)⟩
        · rw [← hxv]
          exact ⟨true, person_sub2 h1 h2 _ (mem_linkOps_merge hv)⟩
        · rw [← hxv]
          exact ⟨true, person_sub3 h1 h2 h3 _ (mem_linkOps_merge hv)⟩
      · intro r hr
        simp only [docRels, hhw, List.mem_append, List.mem_map,
          List.mem_singleton] at hr
        rcases hr with ((hr | ⟨v, hv, hrv⟩) | ⟨v, hv, hrv⟩) | ⟨v, hv, hrv⟩
        · rw [hr]
          exact person_isfrom_rel
        · rw [← hrv]
          exact person_sub1 h1 _ (mem_linkOps_rel hv)
        · rw [← hrv]
          exact person_sub2 h1 h2 _ (mem_linkOps_rel hv)
        · rw [← hrv]
          exact person_sub3 h1 h2 h3 _ (mem_linkOps_rel hv)
  | film d =>
    have h0 : filmOps d = ops := by simpa [docOps] using hops
    subst h0
    rcases hne with ⟨h1, h2, h3, h4, h5⟩
    constructor
    · intro x hx
      simp only [docStubRefs, docTagRefs, List.mem_append, List.mem_map] at hx
      rcases hx with ((((⟨v, hv, hxv⟩ | ⟨v, hv, hxv⟩) | ⟨v, hv, hxv⟩) |
        ⟨v, hv, hxv⟩) | ⟨v, hv, hxv⟩) | (⟨v, hv, hxv⟩ | ⟨v, hv, hxv⟩)
      · rw [← hxv]
        exact ⟨true, film_sub1 h1 _ (mem_linkOps_merge hv)⟩
      · rw [← hxv]
        exact ⟨true, film_sub2 h1 h2 _ (mem_linkOps_merge hv)⟩
      · rw [← hxv]
        exact ⟨true, film_sub3 h1 h2 h3 _ (mem_linkOps_merge hv)⟩
      · rw [← hxv]
        exact ⟨true, film_sub4 h1 h2 h3 h4 _ (mem_linkOps_merge hv)⟩
      · rw [← hxv]
        exact ⟨true, film_sub5 h1 h2 h3 h4 h5 _ (mem_linkOps_merge hv)⟩
      · rw [← hxv]
        exact ⟨false, film_tag_sub _
          (List.mem_append.mpr (Or.inl (mem_linkOps_merge hv)))⟩
      · rw [← hxv]
        exact ⟨false, film_tag_sub _
          (List.mem_append.mpr (Or.inr (mem_linkOps_merge hv)))⟩
    · intro r hr
      simp only [docRels, List.mem_append, List.mem_map] at hr
      rcases hr with ((((((⟨v, hv, hrv⟩ | ⟨v, hv, hrv⟩) | ⟨v, hv, hrv⟩) |
        ⟨v, hv, hrv⟩) | ⟨v, hv, hrv⟩) | ⟨v, hv, hrv⟩) | ⟨v, hv, hrv⟩)
      · rw [← hrv]
        exact film_tag_sub _ (List.mem_append.mpr (Or.inl (mem_linkOps_rel hv)))
      · rw [← hrv]
        exact film_tag_sub _ (List.mem_append.mpr (Or.inr (mem_linkOps_rel hv)))
      · rw [← hrv]
        exact film_sub1 h1 _ (mem_linkOps_rel hv)
      · rw [← hrv]
        exact film_sub2 h1 h2 _ (mem_linkOps_rel hv)
      · rw [← hrv]
        exact film_sub3 h1 h2 h3 _ (mem_linkOps_rel hv)
      · rw [← hrv]
        exact film_sub4 h1 h2 h3 h4 _ (mem_linkOps_rel hv)
      · rw [← hrv]
        exact film_sub5 h1 h2 h3 h4 h5 _ (mem_linkOps_rel hv)
  | planet d =>
    have h0 : planetOps d = ops := by simpa [docOps] using hops
    subst h0
    constructor
    · intro x hx
      simp only [docStubRefs, docTagRefs, List.nil_append,
        List.mem_append, List.mem_map] at hx
      rcases hx with ⟨v, hv, hxv⟩ | ⟨v, hv, hxv⟩
      · rw [← hxv]
        exact ⟨false, planet_tag_sub _
          (List.mem_append.mpr (Or.inl (mem_linkOps_merge hv)))⟩
      · rw [← hxv]
        exact ⟨false, planet_tag_sub _
          (List.mem_append.mpr (Or.inr (mem_linkOps_merge hv)))⟩
    · intro r hr
      simp only [docRels, List.mem_append, List.mem_map] at hr
      rcases hr with ⟨v, hv, hrv⟩ | ⟨v, hv, hrv⟩
      · rw [← hrv]
        exact planet_tag_sub _ (List.mem_append.mpr (Or.inl (mem_linkOps_rel hv)))
      · rw [← hrv]
        exact planet_tag_sub _ (List.mem_append.mpr (Or.inr (mem_linkOps_rel hv)))
  | species d =>
    have h0 : speciesOps d = ops := by simpa [docOps] using hops
    subst h0
    exact ⟨fun x hx => absurd hx (List.not_mem_nil _),
      fun r hr => absurd hr (List.not_mem_nil _)⟩
  | starship d =>
    have h0 : starshipOps d = ops := by simpa [docOps] using hops
    subst h0
    constructor
    · intro x hx
      simp only [docStubRefs, docTagRefs, List.nil_append] at hx
      rcases List.mem_cons.mp hx with hx | hx
      · rw [hx]
        exact ⟨false, starship_tag_sub _ (List.mem_append.mpr
          (Or.inl (mem_linkOps_merge (List.mem_singleton.mpr rfl))))⟩
      · simp only [List.mem_singleton] at hx
        rw [hx]
        exact ⟨false, starship_tag_sub _ (List.mem_append.mpr
          (Or.inr (mem_linkOps_merge (List.mem_singleton.mpr rfl))))⟩
    · intro r hr
      rcases List.mem_cons.mp hr with hr | hr
      · rw [hr]
        exact starship_tag_sub _ (List.mem_append.mpr
          (Or.inl (mem_linkOps_rel (List.mem_singleton.mpr rfl))))
      · simp only [List.mem_singleton] at hr
        rw [hr]
        exact starship_tag_sub _ (List.mem_append.mpr
          (Or.inr (mem_linkOps_rel (List.mem_singleton.mpr rfl))))
  | vehicle d =>
    have h0 : vehicleOps d = ops := by simpa [docOps] using hops
    subst h0
    constructor
    · intro x hx
      simp only [docStubRefs, docTagRefs, List.nil_append] at hx
      rcases List.mem_cons.mp hx with hx | hx
      · rw [hx]
        exact ⟨false, vehicle_tag_sub _ (List.mem_append.mpr
          (Or.inl (mem_linkOps_merge (List.mem_singleton.mpr rfl))))⟩
      · simp only [List.mem_singleton] at hx
        rw [hx]
        exact ⟨false, vehicle_tag_sub _ (List.mem_append.mpr
          (Or.inr (mem_linkOps_merge (List.mem_singleton.mpr rfl))))⟩
    · intro r hr
      rcases List.mem_cons.mp hr with hr | hr
      · rw [hr]
        exact vehicle_tag_sub _ (List.mem_append.mpr
          (Or.inl (mem_linkOps_rel (List.mem_singleton.mpr rfl))))
      · simp only [List.mem_singleton] at hr
        rw [hr]
        exact vehicle_tag_sub _ (List.mem_append.mpr
          (Or.inr (mem_linkOps_rel (List.mem_singleton.mpr rfl))))

theorem rel_endpoints_in_personOps {r : Rel} {d : PersonDoc} {hw : String}
    (h : Op.rel r ∈ personOps d hw) :
    (∃ ph, Op.merge r.srcKind r.srcKey ph ∈ personOps d hw) ∧
    (∃ ph, Op.merge r.dstKind r.dstKey ph ∈ personOps d hw) := by
  rcases List.mem_cons.mp h with heq | h
  · exact Op.noConfusion heq
  rcases List.mem_cons.mp h with heq | h
  · exact Op.noConfusion heq
  rcases List.mem_cons.mp h with heq | h
  · exact Op.noConfusion heq
  rcases List.mem_cons.mp h with heq | h
  · exact Op.noConfusion heq
  rcases List.mem_cons.mp h with heq | h
  · injection heq with h2
    rw [h2]
    exact ⟨⟨false, person_head_merge⟩, ⟨true, person_planet_merge⟩⟩
  have h3 : Op.rel r ∈ (if d.species.isEmpty = true then ([] : List Op) else
      stubOps .Species (fun v => ⟨.Person, d.url, .IS_SPECIES, .Species, v⟩)
        d.species
      ++ (if d.starships.isEmpty = true then [] else
        stubOps .Starship (fun v => ⟨.Person, d.url, .PILOTS, .Starship, v⟩)
          d.starships
        ++ (if d.vehicles.isEmpty = true then [] else
          stubOps .Vehicle (fun v => ⟨.Person, d.url, .PILOTS, .Vehicle, v⟩)
            d.vehicles))) := h
  clear h
  by_cases hs : d.species.isEmpty = true
  · rw [if_pos hs] at h3
    exact absurd h3 (List.not_mem_nil _)
  rw [if_neg hs] at h3
  have h1 : d.species.isEmpty = false := Bool.eq_false_iff.mpr hs
  rcases List.mem_append.mp h3 with h | h
  · rcases rel_mem_linkOps h with ⟨v, hv, hr⟩
    rw [hr]
    exact ⟨⟨false, person_head_merge⟩,
      ⟨true, person_sub1 h1 _ (mem_linkOps_merge hv)⟩⟩
  by_cases ht : d.starships.isEmpty = true
  · rw [if_pos ht] at h
    exact absurd h (List.not_mem_nil _)
  rw [if_neg ht] at h
  have h2 : d.starships.isEmpty = false := Bool.eq_false_iff.mpr ht
  rcases List.mem_append.mp h with h | h
  · rcases rel_mem_linkOps h with ⟨v, hv, hr⟩
    rw [hr]
    exact ⟨⟨false, person_head_merge⟩,
      ⟨true, person_sub2 h1 h2 _ (mem_linkOps_merge hv)⟩⟩
  by_cases hv2 : d.vehicles.isEmpty = true
  · rw [if_pos hv2] at h
    exact absurd h (List.not_mem_nil _)
  rw [if_neg hv2] at h
  have h4 : d.vehicles.isEmpty = false := Bool.eq_false_iff.mpr hv2
  rcases rel_mem_linkOps h with ⟨v, hv, hr⟩
  rw [hr]
  exact ⟨⟨false, person_head_merge⟩,
    ⟨true, person_sub3 h1 h2 h4 _ (mem_linkOps_merge hv)⟩⟩

theorem rel_endpoints_in_filmOps {r : Rel} {d : FilmDoc}
    (h : Op.rel r ∈ filmOps d) :
    (∃ ph, Op.merge r.srcKind r.srcKey ph ∈ filmOps d) ∧
    (∃ ph, Op.merge r.dstKind r.dstKey ph ∈ filmOps d) := by
  rcases List.mem_cons.mp h with heq | h
  · exact Op.noConfusion heq
  rcases List.mem_cons.mp h with heq | h
  · exact Op.noConfusion heq
  have h3 : Op.rel r ∈
      (tagOps .Director (fun v => ⟨.Film, d.url, .DIRECTED_BY, .Director, v⟩)
        (splitComma d.director)
      ++ tagOps .Producer (fun v => ⟨.Film, d.url, .PRODUCED_BY, .Producer, v⟩)
        (splitComma d.producer))
      ++ (if d.characters.isEmpty = true then ([] : List Op) else
        stubOps .Person (fun v => ⟨.Person, v, .APPEARS_IN, .Film, d.url⟩)
          d.characters
        ++ (if d.planets.isEmpty = true then [] else
          stubOps .Planet (fun v => ⟨.Film, d.url, .TAKES_PLACE_ON, .Planet, v⟩)
            d.planets
          ++ (if d.species.isEmpty = true then [] else
            stubOps .Species (fun v => ⟨.Species, v, .APPEARS_IN, .Film, d.url⟩)
              d.species
            ++ (if d.starships.isEmpty = true then [] else
              stubOps .Starship
                (fun v => ⟨.Starship, v, .APPEARS_IN, .Film, d.url⟩)
                d.starships
              ++ (if d.vehicles.isEmpty = true then [] else
                stubOps .Vehicle
                  (fun v => ⟨.Vehicle, v, .APPEARS_IN, .Film, d.url⟩)
                  d.vehicles))))) := h
  clear h
  rcases List.mem_append.mp h3 with h | h
  · rcases List.mem_append.mp h with h | h
    · rcases rel_mem_linkOps h with ⟨v, hv, hr⟩
      rw [hr]
      exact ⟨⟨false, film_head_merge⟩, ⟨false, film_tag_sub _
        (List.mem_append.mpr (Or.inl (mem_linkOps_merge hv)))⟩⟩
    · rcases rel_mem_linkOps h with ⟨v, hv, hr⟩
      rw [hr]
      exact ⟨⟨false, film_head_merge⟩, ⟨false, film_tag_sub _
        (List.mem_append.mpr (Or.inr (mem_linkOps_merge hv)))⟩⟩
  by_cases hc : d.characters.isEmpty = true
  · rw [if_pos hc] at h
    exact absurd h (List.not_mem_nil _)
  rw [if_neg hc] at h
  have h1 : d.characters.isEmpty = false := Bool.eq_false_iff.mpr hc
  rcases List.mem_append.mp h with h | h
  · rcases rel_mem_linkOps h with ⟨v, hv, hr⟩
    rw [hr]
    exact ⟨⟨true, film_sub1 h1 _ (mem_linkOps_merge hv)⟩,
      ⟨false, film_head_merge⟩⟩
  by_cases hp : d.planets.isEmpty = true
  · rw [if_pos hp] at h
    exact absurd h (List.not_mem_nil _)
  rw [if_neg hp] at h
  have h2 : d.planets.isEmpty = false := Bool.eq_false_iff.mpr hp
  rcases List.mem_append.mp h with h | h
  · rcases rel_mem_linkOps h with ⟨v, hv, hr⟩
    rw [hr]
    exact ⟨⟨false, film_head_merge⟩,
      ⟨true, film_sub2 h1 h2 _ (mem_linkOps_merge hv)⟩⟩
  by_cases hsp : d.species.isEmpty = true
  · rw [if_pos hsp] at h
    exact absurd h (List.not_mem_nil _)
  rw [if_neg hsp] at h
  have h5 : d.species.isEmpty = false := Bool.eq_false_iff.mpr hsp
  rcases List.mem_append.mp h with h | h
  · rcases rel_mem_linkOps h with ⟨v, hv, hr⟩
    rw [hr]
    exact ⟨⟨true, film_sub3 h1 h2 h5 _ (mem_linkOps_merge hv)⟩,
      ⟨false, film_head_merge⟩⟩
  by_cases hst : d.starships.isEmpty = true
  · rw [if_pos hst] at h
    exact absurd h (List.not_mem_nil _)
  rw [if_neg hst] at h
  have h6 : d.starships.isEmpty = false := Bool.eq_false_iff.mpr hst
  rcases List.mem_append.mp h with h | h
  · rcases rel_mem_linkOps h with ⟨v, hv, hr⟩
    rw [hr]
    exact ⟨⟨true, film_sub4 h1 h2 h5 h6 _ (mem_linkOps_merge hv)⟩,
      ⟨false, film_head_merge⟩⟩
  by_cases hvh : d.vehicles.isEmpty = true
  · rw [if_pos hvh] at h
    exact absurd h (List.not_mem_nil _)
  rw [if_neg hvh] at h
  have h7 : d.vehicles.isEmpty = false := Bool.eq_false_iff.mpr hvh
  rcases rel_mem_linkOps h with ⟨v, hv, hr⟩
  rw [hr]
  exact ⟨⟨true, film_sub5 h1 h2 h5 h6 h7 _ (mem_linkOps_merge hv)⟩,
    ⟨false, film_head_merge⟩⟩

theorem rel_endpoints_in_planetOps {r : Rel} {d : PlanetDoc}
    (h : Op.rel r ∈ planetOps d) :
    (∃ ph, Op.merge r.srcKind r.srcKey ph ∈ planetOps d) ∧
    (∃ ph, Op.merge r.dstKind r.dstKey ph ∈ planetOps d) := by
  rcases List.mem_cons.mp h with heq | h
  · exact Op.noConfusion heq
  rcases List.mem_cons.mp h with heq | h
  · exact Op.noConfusion heq
  rcases List.mem_cons.mp h with heq | h
  · exact Op.noConfusion heq
  rcases List.mem_append.mp h with h | h
  · rcases rel_mem_linkOps h with ⟨v, hv, hr⟩
    rw [hr]
    exact ⟨⟨false, List.mem_cons_self _ _⟩, ⟨false, planet_tag_sub _
      (List.mem_append.mpr (Or.inl (mem_linkOps_merge hv)))⟩⟩
  · rcases rel_mem_linkOps h with ⟨v, hv, hr⟩
    rw [hr]
    exact ⟨⟨false, List.mem_cons_self _ _⟩, ⟨false, planet_tag_sub _
      (List.mem_append.mpr (Or.inr (mem_linkOps_merge hv)))⟩⟩

theorem rel_endpoints_in_starshipOps {r : Rel} {d : StarshipDoc}
    (h : Op.rel r ∈ starshipOps d) :
    (∃ ph, Op.merge r.srcKind r.srcKey ph ∈ starshipOps d) ∧
    (∃ ph, Op.merge r.dstKind r.dstKey ph ∈ starshipOps d) := by
  rcases List.mem_cons.mp h with heq | h
  · exact Op.noConfusion heq
  rcases List.mem_cons.mp h with heq | h
  · exact Op.noConfusion heq
  rcases List.mem_cons.mp h with heq | h
  · exact Op.noConfusion heq
  rcases List.mem_append.mp h with h | h
  · rcases rel_mem_linkOps h with ⟨v, hv, hr⟩
    rw [hr]
    exact ⟨⟨false, List.mem_cons_self _ _⟩, ⟨false, starship_tag_sub _
      (List.mem_append.mpr (Or.inl (mem_linkOps_merge hv)))⟩⟩
  · rcases rel_mem_linkOps h with ⟨v, hv, hr⟩
    rw [hr]
    exact ⟨⟨false, List.mem_cons_self _ _⟩, ⟨false, starship_tag_sub _
      (List.mem_append.mpr (Or.inr (mem_linkOps_merge hv)))⟩⟩

theorem rel_endpoints_in_vehicleOps {r : Rel} {d : VehicleDoc}
    (h : Op.rel r ∈ vehicleOps d) :
    (∃ ph, Op.merge r.srcKind r.srcKey ph ∈ vehicleOps d) ∧
    (∃ ph, Op.merge r.dstKind r.dstKey ph ∈ vehicleOps d) := by
  rcases List.mem_cons.mp h with heq | h
  · exact Op.noConfusion heq
  rcases List.mem_cons.mp h with heq | h
  · exact Op.noConfusion heq
  rcases List.mem_cons.mp h with heq | h
  · exact Op.noConfusion heq
  rcases List.mem_append.mp h with h | h
  · rcases rel_mem_linkOps h with ⟨v, hv, hr⟩
    rw [hr]
    exact ⟨⟨false, List.mem_cons_self _ _⟩, ⟨false, vehicle_tag_sub _
      (List.mem_append.mpr (Or.inl (mem_linkOps_merge hv)))⟩⟩
  · rcases rel_mem_linkOps h with ⟨v, hv, hr⟩
    rw [hr]
    exact ⟨⟨false, List.mem_cons_self _ _⟩, ⟨false, vehicle_tag_sub _
      (List.mem_append.mpr (Or.inr (mem_linkOps_merge hv)))⟩⟩

/-- In every query, the `CREATE UNIQUE` of an edge is accompanied by merge
clauses for both of its endpoints in the same query. -/
theorem rel_endpoints_in_docOps (d : Doc) {ops : List Op} {r : Rel}
    (hops : docOps d = some ops) (hr : Op.rel r ∈ ops) :
    (∃ ph, Op.merge r.srcKind r.srcKey ph ∈ ops) ∧
    (∃ ph, Op.merge r.dstKind r.dstKey ph ∈ ops) := by
  cases d with
  | person d =>
    cases hhw : d.homeworld with
    | none => simp [docOps, hhw] at hops
    | some hw =>
      have h2 : personOps d hw = ops := by simpa [docOps, hhw] using hops
      subst h2
      exact rel_endpoints_in_personOps hr
  | film d =>
    have h2 : filmOps d = ops := by simpa [docOps] using hops
    subst h2
    exact rel_endpoints_in_filmOps hr
  | planet d =>
    have h2 : planetOps d = ops := by simpa [docOps] using hops
    subst h2
    exact rel_endpoints_in_planetOps hr
  | species d =>
    have h2 : speciesOps d = ops := by simpa [docOps] using hops
    subst h2
    rcases List.mem_cons.mp hr with heq | hr
    · exact Op.noConfusion heq
    rcases List.mem_cons.mp hr with heq | hr
    · exact Op.noConfusion heq
    rcases List.mem_cons.mp hr with heq | hr
    · exact Op.noConfusion heq
    exact absurd hr (List.not_mem_nil _)
  | starship d =>
    have h2 : starshipOps d = ops := by simpa [docOps] using hops
    subst h2
    exact rel_endpoints_in_starshipOps hr
  | vehicle d =>
    have h2 : vehicleOps d = ops := by simpa [docOps] using hops
    subst h2
    exact rel_endpoints_in_vehicleOps hr

/-! ### Claim C8: tag entities are keyed by scalar values and born
hydrated -/

/-- Claim C8: every auxiliary tag entity (Director, Producer, Manufacturer,
Climate, Terrain, StarshipClass, VehicleClass) that an upsert creates is
keyed by a scalar value taken verbatim from the document (a name or type
string, never a url) and never carries the Placeholder label — if no tag
node of the store is a placeholder, none is after any upsert — and the
unhydrated-entity selection query therefore never returns a tag kind. -/
theorem C8_tag_nodes_hydrated :
    (∀ (d : Doc) (s s2 : Store), upsert d s = some s2 →
      (∀ n ∈ s.nodes, isTag n.kind = true → n.placeholder = false) →
      ∀ n ∈ s2.nodes, isTag n.kind = true →
        n.placeholder = false ∧
        ((∃ m ∈ s.nodes, m.kind = n.kind ∧ m.key = n.key) ∨
          (n.kind, n.key) ∈ docTagRefs d)) ∧
    (∀ (s : Store),
      (∀ n ∈ s.nodes, isTag n.kind = true → n.placeholder = false) →
      ∀ (url : String) (k : Kind), FIND_NEW_ENTITY_QUERY s = some (url, k) →
        isTag k = false) := by
  constructor
  · intro d s s2 hup htag n hn htagn
    rcases upsert_some d hup with ⟨ops, hops, happ, _⟩
    subst happ
    rcases applyOps_nodes_src ops hn with ⟨m, hm, hk, hy, hp⟩ | ⟨k, key, ph, hin, hk, hy, hp⟩
    · have hmtag : isTag m.kind = true := by rw [hk, htagn]
      have hmph := htag m hm hmtag
      refine ⟨?_, Or.inl ⟨m, hm, hk, hy⟩⟩
      cases hnp : n.placeholder with
      | false => rfl
      | true => rw [hp hnp] at hmph; cases hmph
    · rcases merge_mem_docOps hops hin with ⟨hsub, hph⟩ | ⟨hstub, hph⟩ | ⟨htg, hph⟩
      · exfalso
        have : isTag k = false := by
          have h2 : k = (docSubject d).1 := by rw [← hsub]
          rw [h2]
          exact subject_not_tag d
        rw [hk] at htagn
        rw [htagn] at this
        cases this
      · exfalso
        have h2 := (stubRefs_fetchable d _ hstub).2
        rw [hk] at htagn
        rw [htagn] at h2
        cases h2
      · refine ⟨?_, Or.inr (by rw [hk, hy]; exact htg)⟩
        cases hnp : n.placeholder with
        | false => rfl
        | true => rw [hp hnp] at hph; cases hph
  · intro s htag url k hfq
    unfold FIND_NEW_ENTITY_QUERY at hfq
    cases hps : placeholders s with
    | nil => rw [hps] at hfq; cases hfq
    | cons p rest =>
      rw [hps] at hfq
      injection hfq with hpair
      injection hpair with h1 h2
      have hpmem : p ∈ placeholders s := hps ▸ List.mem_cons_self p rest
      have hp2 := List.mem_filter.mp hpmem
      cases hq : isTag p.kind with
      | false => rw [← h2]; exact hq
      | true =>
        exfalso
        have := htag p hp2.1 hq
        rw [this] at hp2
        exact Bool.noConfusion hp2.2

/-- Witness for C8: after upserting the witness film, the Director tag
entity is keyed by the director's name, carries no Placeholder label, and
the selection query returns the Person stub, not a tag kind. -/
theorem C8_tag_nodes_hydrated_witness :
    ((⟨.Director, "George Lucas", false, []⟩ : Node).placeholder = false ∧
      ((∃ m ∈ emptyStore.nodes,
          m.kind = Kind.Director ∧ m.key = "George Lucas") ∨
        ((Kind.Director, "George Lucas") ∈ docTagRefs wDocC2))) ∧
      isTag .Person = false := by
  constructor
  · exact C8_tag_nodes_hydrated.1 wDocC2 emptyStore wStoreFilm (by decide)
      (by decide) ⟨.Director, "George Lucas", false, []⟩ (by decide) (by decide)
  · exact C8_tag_nodes_hydrated.2 wStoreFilm (by decide) "people/1" .Person
      (by decide)

/-! ### Claim C6: termination of the crawl loop -/

theorem isTag_not_fetchable : ∀ k : Kind, isTag k = true → fetchable k = false := by
  intro k h
  cases k <;> first | rfl | exact Bool.noConfusion h

theorem getQueryForLabel_of_fetchable :
    ∀ k : Kind, fetchable k = true → ∃ q, getQueryForLabel k = some q := by
  intro k h
  cases k <;> first | exact ⟨_, rfl⟩ | exact Bool.noConfusion h

/-- Running `getQueryForLabel(label)` on a document whose subject carries
that label is the document's own upsert query. -/
theorem runQuery_eq_upsert (k : Kind) (key : String) (d : Doc) (q : QueryTag)
    (s : Store) (hq : getQueryForLabel k = some q)
    (hsub : docSubject d = (k, key)) : runQuery q d s = upsert d s := by
  cases k <;> first
    | exact Option.noConfusion hq
    | (injection hq with hq2
       subst hq2
       cases d <;> first
         | rfl
         | exact absurd (congrArg Prod.fst hsub) (fun hh => Kind.noConfusion hh))

/-- Every query whose document does not trip the null-homeworld error
returns a store. -/
theorem upsert_total (d : Doc) (s : Store) (h : homewOK d) :
    ∃ s2, upsert d s = some s2 := by
  cases d with
  | person d =>
    cases hhw : d.homeworld with
    | none => exact absurd hhw h
    | some hw =>
      exact ⟨applyOps (personOps d hw) s,
        by simp [upsert, CREATE_PERSON_QUERY, hhw]⟩
  | film d => exact ⟨_, rfl⟩
  | planet d => exact ⟨_, rfl⟩
  | species d => exact ⟨_, rfl⟩
  | starship d => exact ⟨_, rfl⟩
  | vehicle d => exact ⟨_, rfl⟩

/-- No clause ever creates a node with an already-present label-and-key,
so key uniqueness is invariant. -/
theorem distinct_applyOp (o : Op) {s : Store}
    (h : s.nodes.Pairwise (fun a b => ¬(a.kind = b.kind ∧ a.key = b.key))) :
    (applyOp o s).nodes.Pairwise
      (fun a b => ¬(a.kind = b.kind ∧ a.key = b.key)) := by
  cases o with
  | merge k key ph =>
    simp only [applyOp, mergeNode]
    split
    · exact h
    · rename_i hnp
      refine List.pairwise_append.mpr ⟨h, List.pairwise_singleton _ _, ?_⟩
      intro a ha b hb hab
      simp only [List.mem_singleton] at hb
      apply hnp
      refine nodePresent_iff.mpr ⟨a, ha, ?_, ?_⟩
      · rw [hab.1, hb]
      · rw [hab.2, hb]
  | set k key kvs =>
    refine List.pairwise_map.mpr (h.imp ?_)
    intro a b hab ⟨h1, h2⟩
    apply hab
    constructor
    · revert h1
      split <;> split <;> exact fun h1 => h1
    · revert h2
      split <;> split <;> exact fun h2 => h2
  | removePh k key =>
    refine List.pairwise_map.mpr (h.imp ?_)
    intro a b hab ⟨h1, h2⟩
    apply hab
    constructor
    · revert h1
      split <;> split <;> exact fun h1 => h1
    · revert h2
      split <;> split <;> exact fun h2 => h2
  | rel r =>
    simp only [applyOp, ensureRel]
    split <;> exact h

theorem distinct_applyOps :
    ∀ (ops : List Op) {s : Store},
      s.nodes.Pairwise (fun a b => ¬(a.kind = b.kind ∧ a.key = b.key)) →
      (applyOps ops s).nodes.Pairwise
        (fun a b => ¬(a.kind = b.kind ∧ a.key = b.key))
  | [], _, h => h
  | o :: ops, _, h => distinct_applyOps ops (distinct_applyOp o h)

theorem hydratedKeys_subset_U {U : Finset (Kind × String)} {s : Store}
    (hkeys : ∀ n ∈ s.nodes, fetchable n.kind = true → (n.kind, n.key) ∈ U) :
    hydratedKeys s ⊆ U := by
  intro x hx
  simp only [hydratedKeys, List.mem_toFinset, List.mem_map,
    List.mem_filter] at hx
  rcases hx with ⟨n, ⟨hn, hpred⟩, hxn⟩
  rw [Bool.and_eq_true] at hpred
  rw [← hxn]
  exact hkeys n hn hpred.1

theorem hydratedKeys_mono_applyOps (ops : List Op) (s : Store) :
    hydratedKeys s ⊆ hydratedKeys (applyOps ops s) := by
  intro x hx
  simp only [hydratedKeys, List.mem_toFinset, List.mem_map,
    List.mem_filter] at hx ⊢
  rcases hx with ⟨n, ⟨hn, hpred⟩, hxn⟩
  rw [Bool.and_eq_true] at hpred
  rcases hpred with ⟨hf, hph⟩
  have hph2 : n.placeholder = false := by
    cases hb : n.placeholder
    · rfl
    · rw [hb] at hph; exact Bool.noConfusion hph
  rcases applyOps_nodes_mono ops hn with ⟨m, hm, hk, hy, hp⟩
  have hmph : m.placeholder = false := by
    cases hb : m.placeholder
    · rfl
    · rw [hp hb] at hph2; exact Bool.noConfusion hph2
  refine ⟨m, ⟨hm, ?_⟩, ?_⟩
  · rw [Bool.and_eq_true, hk, hmph]
    exact ⟨hf, rfl⟩
  · rw [← hxn, hk, hy]

theorem hydrated_mem_hydratedKeys {s : Store} {k : Kind} {key : String}
    (hf : fetchable k = true) (hpres : PresentP k key s)
    (hnoph : NoPhP k key s) : (k, key) ∈ hydratedKeys s := by
  rcases nodePresent_iff.mp hpres with ⟨n, hn, hk, hy⟩
  have hmt : nodeMatches n k key = true := nodeMatches_iff.mpr ⟨hk, hy⟩
  simp only [hydratedKeys, List.mem_toFinset, List.mem_map, List.mem_filter]
  refine ⟨n, ⟨hn, ?_⟩, by rw [hk, hy]⟩
  rw [Bool.and_eq_true, hk, hnoph n hn hmt]
  exact ⟨hf, rfl⟩

theorem placeholder_not_mem_hydratedKeys {s : Store} {p : Node}
    (hpair : s.nodes.Pairwise (fun a b => ¬(a.kind = b.kind ∧ a.key = b.key)))
    (hp : p ∈ s.nodes) (hph : p.placeholder = true) :
    (p.kind, p.key) ∉ hydratedKeys s := by
  intro hmem
  simp only [hydratedKeys, List.mem_toFinset, List.mem_map,
    List.mem_filter] at hmem
  rcases hmem with ⟨n, ⟨hn, hpred⟩, hxn⟩
  rw [Bool.and_eq_true] at hpred
  have hnph := hpred.2
  have hnph2 : n.placeholder = false := by
    cases hb : n.placeholder
    · rfl
    · rw [hb] at hnph; exact Bool.noConfusion hnph
  have hne : n ≠ p := fun he => by
    rw [he, hph] at hnph2
    exact Bool.noConfusion hnph2
  have hsym : Symmetric (fun a b : Node => ¬(a.kind = b.kind ∧ a.key = b.key)) := by
    intro a b hab ⟨h1, h2⟩
    exact hab ⟨h1.symm, h2.symm⟩
  have := List.Pairwise.forall hsym hpair hn hp hne
  apply this
  have h1 := congrArg Prod.fst hxn
  have h2 := congrArg Prod.snd hxn
  exact ⟨h1, h2⟩

/-- Fetchable documents merge their subject without a Placeholder and
remove its Placeholder label. -/
theorem subject_ops_mem (d : Doc) {ops : List Op} (hops : docOps d = some ops)
    (hf : fetchable (docSubject d).1 = true) :
    Op.merge (docSubject d).1 (docSubject d).2 false ∈ ops ∧
      Op.removePh (docSubject d).1 (docSubject d).2 ∈ ops := by
  cases d with
  | person d =>
    cases hhw : d.homeworld with
    | none => simp [docOps, hhw] at hops
    | some hw =>
      have h2 : personOps d hw = ops := by simpa [docOps, hhw] using hops
      subst h2
      exact ⟨List.mem_cons_self _ _,
        List.mem_cons_of_mem _ (List.mem_cons_of_mem _ (List.mem_cons_self _ _))⟩
  | film d => exact Bool.noConfusion hf
  | planet d =>
    have h2 : planetOps d = ops := by simpa [docOps] using hops
    subst h2
    exact ⟨List.mem_cons_self _ _,
      List.mem_cons_of_mem _ (List.mem_cons_of_mem _ (List.mem_cons_self _ _))⟩
  | species d =>
    have h2 : speciesOps d = ops := by simpa [docOps] using hops
    subst h2
    exact ⟨List.mem_cons_self _ _,
      List.mem_cons_of_mem _ (List.mem_cons_of_mem _ (List.mem_cons_self _ _))⟩
  | starship d =>
    have h2 : starshipOps d = ops := by simpa [docOps] using hops
    subst h2
    exact ⟨List.mem_cons_self _ _,
      List.mem_cons_of_mem _ (List.mem_cons_of_mem _ (List.mem_cons_self _ _))⟩
  | vehicle d =>
    have h2 : vehicleOps d = ops := by simpa [docOps] using hops
    subst h2
    exact ⟨List.mem_cons_self _ _,
      List.mem_cons_of_mem _ (List.mem_cons_of_mem _ (List.mem_cons_self _ _))⟩

/-- A successful upsert of a fetchable document leaves its subject
hydrated. -/
theorem subject_hydrated_after_upsert {d : Doc} {s s2 : Store}
    (hup : upsert d s = some s2) (hf : fetchable (docSubject d).1 = true) :
    PresentP (docSubject d).1 (docSubject d).2 s2 ∧
      NoPhP (docSubject d).1 (docSubject d).2 s2 := by
  rcases upsert_some d hup with ⟨ops, hops, happ, hwf⟩
  subst happ
  have hposts := applyOps_posts ops [] s
    (fun p hp => absurd hp (List.not_mem_nil _)) hwf
  rcases subject_ops_mem d hops hf with ⟨hm, hr⟩
  exact ⟨hposts _ hm, hposts _ hr⟩

/-- A successful upsert whose subject and stub references stay inside `U`
preserves the crawl invariant. -/
theorem StoreOK_upsert {U : Finset (Kind × String)} {d : Doc} {s s2 : Store}
    (hup : upsert d s = some s2) (hok : StoreOK U s)
    (hsubU : docSubject d ∈ U) (hrefsU : ∀ x ∈ docStubRefs d, x ∈ U) :
    StoreOK U s2 := by
  rcases upsert_some d hup with ⟨ops, hops, happ, _⟩
  subst happ
  refine ⟨?_, ?_, distinct_applyOps ops hok.2.2⟩
  · intro n hn hf
    rcases applyOps_nodes_src ops hn with ⟨m, hm, hk, hy, _⟩ | ⟨k, key, ph, hin, hk, hy, _⟩
    · have := hok.1 m hm (by rw [hk, hf])
      rw [hk, hy] at this
      exact this
    · rcases merge_mem_docOps hops hin with ⟨hsub, _⟩ | ⟨hstub, _⟩ | ⟨htg, _⟩
      · rw [hk, hy, show ((k, key) : Kind × String) = docSubject d from hsub]
        exact hsubU
      · rw [hk, hy]
        exact hrefsU _ hstub
      · exfalso
        have h2 := isTag_not_fetchable k (tagRefs_tag d _ htg)
        rw [← hk, hf] at h2
        exact Bool.noConfusion h2
  · intro n hn hph
    rcases applyOps_nodes_src ops hn with ⟨m, hm, hk, hy, hp⟩ | ⟨k, key, ph, hin, hk, hy, hp⟩
    · have := hok.2.1 m hm (hp hph)
      rw [← hk]
      exact this
    · rcases merge_mem_docOps hops hin with ⟨hsub, hphf⟩ | ⟨hstub, _⟩ | ⟨htg, hphf⟩
      · rw [hp hph] at hphf
        exact Bool.noConfusion hphf
      · rw [hk]
        exact (stubRefs_fetchable d _ hstub).1
      · rw [hp hph] at hphf
        exact Bool.noConfusion hphf

/-- The crawl cycle with enough fuel drains every placeholder: each cycle
hydrates the selected placeholder, hydration never reverts, and hydrated
fetchable keys live in the finite universe `U`, so the count of hydrated
keys strictly increases up to `U.card`. -/
theorem crawl_reaches_done {U : Finset (Kind × String)}
    {fetch : Kind → String → Option Doc} :
    ∀ (n : Nat) (s : Store), GoodFetch U fetch → StoreOK U s →
      U.card < n + (hydratedKeys s).card →
      ∃ s2, crawl fetch n s = .Done s2
  | 0, s, _, hok, hlt => by
    exfalso
    have := Finset.card_le_card (hydratedKeys_subset_U hok.1)
    omega
  | Nat.succ n, s, hgf, hok, hlt => by
    cases hps : placeholders s with
    | nil =>
      refine ⟨s, ?_⟩
      unfold crawl
      rw [hps]
    | cons p rest =>
      have hpmem : p ∈ s.nodes ∧ p.placeholder = true := by
        have h2 : p ∈ placeholders s := hps ▸ List.mem_cons_self p rest
        have h3 := List.mem_filter.mp h2
        exact ⟨h3.1, h3.2⟩
      have hf : fetchable p.kind = true := hok.2.1 p hpmem.1 hpmem.2
      have hU : (p.kind, p.key) ∈ U := hok.1 p hpmem.1 hf
      rcases hgf p.kind p.key hf hU with ⟨d, hfe, hsub, hrefsU, hhw⟩
      rcases getQueryForLabel_of_fetchable p.kind hf with ⟨q, hq⟩
      rcases upsert_total d s hhw with ⟨s2, hup⟩
      have hrun : runQuery q d s = some s2 := by
        rw [runQuery_eq_upsert p.kind p.key d q s hq hsub]
        exact hup
      have hcrawl : crawl fetch (Nat.succ n) s = crawl fetch n s2 := by
        conv_lhs => unfold crawl
        rw [hps]
        simp only [hfe, hq, hrun]
      have hok2 : StoreOK U s2 :=
        StoreOK_upsert hup hok (hsub ▸ hU) hrefsU
      have hmono : hydratedKeys s ⊆ hydratedKeys s2 := by
        rcases upsert_some d hup with ⟨ops, _, happ, _⟩
        subst happ
        exact hydratedKeys_mono_applyOps ops s
      have hnew : (p.kind, p.key) ∈ hydratedKeys s2 := by
        rcases subject_hydrated_after_upsert hup (by rw [hsub]; exact hf)
          with ⟨h1, h2⟩
        rw [hsub] at h1 h2
        exact hydrated_mem_hydratedKeys hf h1 h2
      have hold : (p.kind, p.key) ∉ hydratedKeys s :=
        placeholder_not_mem_hydratedKeys hok.2.2 hpmem.1 hpmem.2
      have hcard : (hydratedKeys s).card < (hydratedKeys s2).card :=
        Finset.card_lt_card
          ((Finset.ssubset_iff_of_subset hmono).mpr
            ⟨(p.kind, p.key), hnew, hold⟩)
      rcases crawl_reaches_done n s2 hgf hok2 (by omega) with ⟨s3, h3⟩
      exact ⟨s3, by rw [hcrawl]; exact h3⟩

/-- A crawl that ends in `Done` ends with no placeholder left. -/
theorem crawl_done_no_ph (fetch : Kind → String → Option Doc) :
    ∀ (n : Nat) (s s2 : Store), crawl fetch n s = .Done s2 →
      placeholders s2 = []
  | 0, s, s2, h => by
    unfold crawl at h
    exact Outcome.noConfusion h
  | Nat.succ n, s, s2, h => by
    unfold crawl at h
    split at h
    · rename_i heq
      injection h with h2
      rw [← h2]
      exact heq
    · split at h
      · exact Outcome.noConfusion h
      · split at h
        · exact Outcome.noConfusion h
        · split at h
          · exact Outcome.noConfusion h
          · exact crawl_done_no_ph fetch n _ s2 h

/-- Claim C6: on a finite universe of `F` discoverable keys served by a
well-behaved fetch oracle (documents match their keys, reference only keys
of the universe, and never trip the null-homeworld error), the drain loop
terminates: each cycle hydrates exactly the selected placeholder and
hydration never reverts, so with fuel `F + 1` (at most `F` cycles) the
loop reaches `Done`, and at `Done` no placeholder remains — every entity
of the store is hydrated (the code has no failed marking, so the claim's
"hydrated or permanently marked failed" is realized by the hydrated case
alone). -/
theorem C6_crawl_terminates (U : Finset (Kind × String))
    (fetch : Kind → String → Option Doc) (s : Store)
    (hgf : GoodFetch U fetch) (hok : StoreOK U s) :
    ∃ s2, crawl fetch (U.card + 1) s = .Done s2 ∧ placeholders s2 = [] ∧
      ∀ n ∈ s2.nodes, n.placeholder = false := by
  rcases crawl_reaches_done (U.card + 1) s hgf hok (by omega) with ⟨s2, h⟩
  have hph := crawl_done_no_ph fetch _ _ _ h
  refine ⟨s2, h, hph, ?_⟩
  intro n hn
  have h2 := List.filter_eq_nil_iff.mp hph n hn
  simpa using h2

theorem C6_goodfetch : GoodFetch wUC6 wFetchC6 := by
  intro k key hf hU
  have hpair : (k, key) = ((.Planet : Kind), "planets/1") :=
    Finset.mem_singleton.mp hU
  have hk : k = .Planet := congrArg Prod.fst hpair
  have hkey : key = "planets/1" := congrArg Prod.snd hpair
  subst hk
  subst hkey
  refine ⟨.planet wPlanet, by decide, rfl, ?_, trivial⟩
  intro x hx
  exact absurd hx (List.not_mem_nil _)

theorem C6_storeok : StoreOK wUC6 wStoreC6 := by
  refine ⟨?_, ?_, ?_⟩
  · intro n hn _
    have h2 : n = ⟨.Planet, "planets/1", true, []⟩ := List.mem_singleton.mp hn
    rw [h2]
    exact Finset.mem_singleton.mpr rfl
  · intro n hn _
    have h2 : n = ⟨.Planet, "planets/1", true, []⟩ := List.mem_singleton.mp hn
    rw [h2]
    rfl
  · exact List.pairwise_singleton _ _

/-- Witness for C6: the one-placeholder store with the Tatooine oracle
reaches `Done` with fuel `card {planets/1} + 1 = 2`. -/
theorem C6_crawl_terminates_witness :
    crawl wFetchC6 2 wStoreC6 = .Done wDoneC6 := by
  rcases C6_crawl_terminates wUC6 wFetchC6 wStoreC6 C6_goodfetch
    C6_storeok with ⟨s2, h1, _, _⟩
  have hcard : wUC6.card + 1 = 2 := by
    rw [show wUC6.card = 1 from Finset.card_singleton _]
  rw [hcard] at h1
  show crawl wFetchC6 2 wStoreC6
    = .Done (outcomeStore (crawl wFetchC6 2 wStoreC6))
  rw [h1]
  rfl

/-- Counterexample for claim C7.  A person document with an empty species
list but a non-empty starships list: `UNWIND {species}` produces zero rows
and every later clause of CREATE_PERSON_QUERY operates on zero rows, so the
starship target of the non-empty `starships` reference field gets neither a
stub entity nor a PILOTS relationship. -/
theorem C7_empty_unwind_counterexample :
    CREATE_PERSON_QUERY wPersonC7 emptyStore = some wStoreC7 ∧
      nodePresent wStoreC7 .Starship "starships/12" = false ∧
      (⟨.Person, "people/1", .PILOTS, .Starship, "starships/12"⟩ : Rel)
        ∉ wStoreC7.rels := by decide

/-- Claim C7, amended: reference completeness holds provided no url-list
field of the document is empty (an empty `UNWIND` list halts the rest of
the query, dropping the later fields entirely).  Under that proviso, after
a successful upsert every stub and tag target of the document exists as an
entity, every declared relationship exists exactly once even when a field
repeats a key (relationship lists stay duplicate-free), and relationship
endpoints always exist: every edge the query creates has merge clauses for
both endpoints in the same query. -/
theorem C7_reference_completeness_amended (d : Doc) (s s2 : Store)
    (hup : upsert d s = some s2) (hne : docListsNonempty d) :
    (∀ x ∈ docStubRefs d ++ docTagRefs d, nodePresent s2 x.1 x.2 = true) ∧
    (s.rels.Nodup → ∀ r ∈ docRels d, s2.rels.count r = 1) ∧
    (s.rels.Nodup → s2.rels.Nodup) ∧
    (RelEndpointsOK s → RelEndpointsOK s2) := by
  rcases upsert_some d hup with ⟨ops, hops, happ, _⟩
  subst happ
  have hrefs := refs_in_docOps d hops hne
  refine ⟨?_, ?_, ?_, ?_⟩
  · intro x hx
    rcases hrefs.1 x hx with ⟨ph, hm⟩
    exact applyOps_present_est ops hm
  · intro hnd r hr
    exact List.count_eq_one_of_mem (applyOps_rels_nodup ops hnd)
      (applyOps_rels_est ops (hrefs.2 r hr))
  · exact fun hnd => applyOps_rels_nodup ops hnd
  · intro hend r hr
    rcases applyOps_rels_src ops hr with hold | hnew
    · rcases hend r hold with ⟨ha, hb⟩
      exact ⟨presentP_applyOps ops ha, presentP_applyOps ops hb⟩
    · rcases rel_endpoints_in_docOps d hops hnew with ⟨⟨p1, hm1⟩, ⟨p2, hm2⟩⟩
      exact ⟨applyOps_present_est ops hm1, applyOps_present_est ops hm2⟩

/-- Witness for the amended C7: the sample person document has no empty
list field; its planet target exists, the IS_FROM edge exists exactly
once, the relationship list is duplicate-free, and endpoints are intact. -/
theorem C7_reference_completeness_amended_witness :
    nodePresent wStoreC1 .Planet "planets/1" = true ∧
      wStoreC1.rels.count
        ⟨.Person, "people/1", .IS_FROM, .Planet, "planets/1"⟩ = 1 ∧
      wStoreC1.rels.Nodup := by
  have h := C7_reference_completeness_amended wDocC1 emptyStore wStoreC1
    (by decide) ⟨rfl, rfl, rfl⟩
  exact ⟨h.1 (.Planet, "planets/1") (by decide),
    h.2.1 (by decide) _ (by decide), h.2.2.1 (by decide)⟩

/-! ### Claim C4, amended: comma-joined scalar list fields -/

theorem intercalate_go_data (sep : String) :
    ∀ (as : List String) (acc : String),
      (String.intercalate.go acc sep as).data
        = acc.data ++ as.flatMap (fun a => sep.data ++ a.data)
  | [], acc => by simp [String.intercalate.go]
  | a :: as, acc => by
    rw [String.intercalate.go, intercalate_go_data sep as (acc ++ sep ++ a)]
    simp [String.data_append]

theorem intercalate_data (sep : String) (a : String) (as : List String) :
    (String.intercalate sep (a :: as)).data
      = a.data ++ as.flatMap (fun x => sep.data ++ x.data) := by
  rw [String.intercalate, intercalate_go_data]

/-- `splitCommaChars` partitions its input: rejoining the fragments with a
comma restores the character list, so no character is dropped or changed
(no trimming, no blank dropping). -/
theorem splitCommaChars_join :
    ∀ l : List Char, ∃ w ws, splitCommaChars l = w :: ws ∧
      l = w ++ ws.flatMap (fun v => ',' :: v)
  | [] => ⟨[], [], rfl, rfl⟩
  | c :: cs => by
    rcases splitCommaChars_join cs with ⟨w, ws, hsp, hj⟩
    by_cases hc : c = ','
    · subst hc
      refine ⟨[], w :: ws, ?_, ?_⟩
      · simp [splitCommaChars, hsp]
      · simp [hj]
    · refine ⟨c :: w, ws, ?_, ?_⟩
      · simp only [splitCommaChars, if_neg hc, hsp]
      · rw [List.cons_append, ← hj]

/-- Every fragment produced by `splitCommaChars` is comma-free: the string
is split at every comma. -/
theorem splitCommaChars_noComma :
    ∀ l : List Char, ∀ f ∈ splitCommaChars l, ',' ∉ f
  | [] => by
    intro f hf
    simp only [splitCommaChars, List.mem_singleton] at hf
    rw [hf]
    exact List.not_mem_nil _
  | c :: cs => by
    intro f hf
    by_cases hc : c = ','
    · subst hc
      simp only [splitCommaChars, if_pos rfl] at hf
      rcases List.mem_cons.mp hf with rfl | hf
      · exact List.not_mem_nil _
      · exact splitCommaChars_noComma cs f hf
    · rcases splitCommaChars_join cs with ⟨w, ws, hsp, _⟩
      simp only [splitCommaChars, if_neg hc, hsp] at hf
      rcases List.mem_cons.mp hf with rfl | hf
      · intro hmem
        rcases List.mem_cons.mp hmem with h1 | h1
        · exact hc h1.symm
        · exact splitCommaChars_noComma cs w
            (hsp ▸ List.mem_cons_self _ _) h1
      · exact splitCommaChars_noComma cs f
          (hsp ▸ List.mem_cons_of_mem _ hf)

/-- Full characterization of Cypher `split(s, ",")`: the result is a
non-empty list of comma-free fragments whose comma-join is exactly the
original string.  This pins the function down completely: fragments keep
their whitespace and blank fragments are kept, since dropping or altering
any fragment would change the rejoined string. -/
theorem splitComma_spec (s : String) :
    ∃ f fs, splitComma s = f :: fs ∧
      String.intercalate "," (f :: fs) = s ∧
      ∀ g ∈ f :: fs, ',' ∉ g.data := by
  rcases splitCommaChars_join s.data with ⟨w, ws, hsp, hj⟩
  refine ⟨List.asString w, ws.map List.asString, ?_, ?_, ?_⟩
  · rw [splitComma, hsp, List.map_cons]
  · apply String.ext
    rw [intercalate_data]
    have hd : (List.asString w).data = w := rfl
    have hsep : ("," : String).data = [','] := rfl
    rw [hd, hsep]
    have hmap : (ws.map List.asString).flatMap
        (fun x => [','] ++ x.data) = ws.flatMap (fun v => ',' :: v) := by
      rw [List.flatMap_map]
      rfl
    rw [hmap, ← hj]
  · intro g hg
    rcases List.mem_cons.mp hg with rfl | hg
    · exact splitCommaChars_noComma s.data w (hsp ▸ List.mem_cons_self _ _)
    · rcases List.mem_map.mp hg with ⟨v, hv, rfl⟩
      exact splitCommaChars_noComma s.data v
        (hsp ▸ List.mem_cons_of_mem _ hv)

/-- A node of a tag kind that appears after a query ran, under a key no
node of that kind carried before, can only come from one of the query's
tag merges: its label-key pair is among the document's tag references. -/
theorem new_tag_key_mem {d : Doc} {ops : List Op}
    (hops : docOps d = some ops) {s : Store} {m : Node}
    (hm : m ∈ (applyOps ops s).nodes) (htag : isTag m.kind = true)
    (hnew : ¬ ∃ n ∈ s.nodes, n.kind = m.kind ∧ n.key = m.key) :
    (m.kind, m.key) ∈ docTagRefs d := by
  rcases applyOps_nodes_src ops hm with ⟨n, hn, hk, hy, _⟩ |
    ⟨k, key, ph, hin, hk, hy, _⟩
  · exact absurd ⟨n, hn, hk, hy⟩ hnew
  · subst hk
    subst hy
    rcases merge_mem_docOps hops hin with ⟨he, _⟩ | ⟨hst, _⟩ | ⟨htg, _⟩
    · have h2 := subject_not_tag d
      rw [← he] at h2
      rw [htag] at h2
      exact Bool.noConfusion h2
    · have h2 := (stubRefs_fetchable d _ hst).2
      rw [htag] at h2
      exact Bool.noConfusion h2
    · exact htg

/-- Claim C4, amended: for every comma-joined scalar list field — a film's
director and producer, a planet's climate and terrain — the upsert splits
the string at every comma and keeps each raw fragment exactly as written:
no whitespace is trimmed and blank fragments are not dropped (part 1:
`splitComma` always returns a non-empty list of comma-free fragments whose
comma-join is the original string, which determines it completely).  Every
raw fragment becomes one tag entity of the schema-declared kind, linked to
the subject by an edge of the schema-declared type, and every node of that
tag kind whose key is not one of the fragments predates the upsert — so a
new tag entity is never keyed by the intact comma-joined string, which
still contains a comma whenever there are two or more fragments. -/
theorem C4_comma_split_amended :
    (∀ s : String, ∃ f fs, splitComma s = f :: fs ∧
        String.intercalate "," (f :: fs) = s ∧
        ∀ g ∈ f :: fs, ',' ∉ g.data) ∧
    (∀ (d : FilmDoc) (s s2 : Store), CREATE_MOVIE_QUERY d s = some s2 →
      (∀ f ∈ splitComma d.director,
          nodePresent s2 .Director f = true ∧
          (⟨.Film, d.url, .DIRECTED_BY, .Director, f⟩ : Rel) ∈ s2.rels) ∧
      (∀ f ∈ splitComma d.producer,
          nodePresent s2 .Producer f = true ∧
          (⟨.Film, d.url, .PRODUCED_BY, .Producer, f⟩ : Rel) ∈ s2.rels) ∧
      (∀ m ∈ s2.nodes, m.kind = .Director → m.key ∉ splitComma d.director →
          ∃ n ∈ s.nodes, n.kind = .Director ∧ n.key = m.key) ∧
      (∀ m ∈ s2.nodes, m.kind = .Producer → m.key ∉ splitComma d.producer →
          ∃ n ∈ s.nodes, n.kind = .Producer ∧ n.key = m.key)) ∧
    (∀ (d : PlanetDoc) (s s2 : Store), CREATE_PLANET_QUERY d s = some s2 →
      (∀ f ∈ splitComma d.climate,
          nodePresent s2 .Climate f = true ∧
          (⟨.Planet, d.url, .HAS_CLIMATE, .Climate, f⟩ : Rel) ∈ s2.rels) ∧
      (∀ f ∈ splitComma d.terrain,
          nodePresent s2 .Terrain f = true ∧
          (⟨.Planet, d.url, .HAS_TERRAIN, .Terrain, f⟩ : Rel) ∈ s2.rels) ∧
      (∀ m ∈ s2.nodes, m.kind = .Climate → m.key ∉ splitComma d.climate →
          ∃ n ∈ s.nodes, n.kind = .Climate ∧ n.key = m.key) ∧
      (∀ m ∈ s2.nodes, m.kind = .Terrain → m.key ∉ splitComma d.terrain →
          ∃ n ∈ s.nodes, n.kind = .Terrain ∧ n.key = m.key)) := by
  refine ⟨splitComma_spec, ?_, ?_⟩
  · intro d s s2 h
    have hs2 : applyOps (filmOps d) s = s2 := Option.some.inj h
    subst hs2
    refine ⟨?_, ?_, ?_, ?_⟩
    · intro f hf
      have hop : Op.merge .Director f false ∈ filmOps d :=
        film_tag_sub _ (List.mem_append.mpr (Or.inl (mem_linkOps_merge hf)))
      have hrel : Op.rel
          (⟨.Film, d.url, .DIRECTED_BY, .Director, f⟩ : Rel) ∈ filmOps d :=
        film_tag_sub _ (List.mem_append.mpr (Or.inl (mem_linkOps_rel hf)))
      have hpres : nodePresent (applyOps (filmOps d) s) .Director f = true :=
        applyOps_present_est (filmOps d) hop
      exact ⟨hpres, applyOps_rels_est (filmOps d) hrel⟩
    · intro f hf
      have hop : Op.merge .Producer f false ∈ filmOps d :=
        film_tag_sub _ (List.mem_append.mpr (Or.inr (mem_linkOps_merge hf)))
      have hrel : Op.rel
          (⟨.Film, d.url, .PRODUCED_BY, .Producer, f⟩ : Rel) ∈ filmOps d :=
        film_tag_sub _ (List.mem_append.mpr (Or.inr (mem_linkOps_rel hf)))
      have hpres : nodePresent (applyOps (filmOps d) s) .Producer f = true :=
        applyOps_present_est (filmOps d) hop
      exact ⟨hpres, applyOps_rels_est (filmOps d) hrel⟩
    · intro m hm hk hnot
      by_cases hex : ∃ n ∈ s.nodes, n.kind = m.kind ∧ n.key = m.key
      · rcases hex with ⟨n, hn, hk2, hy2⟩
        exact ⟨n, hn, hk ▸ hk2, hy2⟩
      · have htg := new_tag_key_mem (d := .film d) rfl hm
          (by rw [hk]; rfl) hex
        rw [hk] at htg
        simp only [docTagRefs, List.mem_append, List.mem_map] at htg
        rcases htg with ⟨v, hv, hveq⟩ | ⟨v, hv, hveq⟩
        · have hvk : v = m.key := congrArg Prod.snd hveq
          exact absurd (hvk ▸ hv) hnot
        · have hpk : Kind.Producer = Kind.Director := congrArg Prod.fst hveq
          exact Kind.noConfusion hpk
    · intro m hm hk hnot
      by_cases hex : ∃ n ∈ s.nodes, n.kind = m.kind ∧ n.key = m.key
      · rcases hex with ⟨n, hn, hk2, hy2⟩
        exact ⟨n, hn, hk ▸ hk2, hy2⟩
      · have htg := new_tag_key_mem (d := .film d) rfl hm
          (by rw [hk]; rfl) hex
        rw [hk] at htg
        simp only [docTagRefs, List.mem_append, List.mem_map] at htg
        rcases htg with ⟨v, hv, hveq⟩ | ⟨v, hv, hveq⟩
        · have hpk : Kind.Director = Kind.Producer := congrArg Prod.fst hveq
          exact Kind.noConfusion hpk
        · have hvk : v = m.key := congrArg Prod.snd hveq
          exact absurd (hvk ▸ hv) hnot
  · intro d s s2 h
    have hs2 : applyOps (planetOps d) s = s2 := Option.some.inj h
    subst hs2
    refine ⟨?_, ?_, ?_, ?_⟩
    · intro f hf
      have hop : Op.merge .Climate f false ∈ planetOps d :=
        planet_tag_sub _ (List.mem_append.mpr (Or.inl (mem_linkOps_merge hf)))
      have hrel : Op.rel
          (⟨.Planet, d.url, .HAS_CLIMATE, .Climate, f⟩ : Rel) ∈ planetOps d :=
        planet_tag_sub _ (List.mem_append.mpr (Or.inl (mem_linkOps_rel hf)))
      have hpres : nodePresent (applyOps (planetOps d) s) .Climate f = true :=
        applyOps_present_est (planetOps d) hop
      exact ⟨hpres, applyOps_rels_est (planetOps d) hrel⟩
    · intro f hf
      have hop : Op.merge .Terrain f false ∈ planetOps d :=
        planet_tag_sub _ (List.mem_append.mpr (Or.inr (mem_linkOps_merge hf)))
      have hrel : Op.rel
          (⟨.Planet, d.url, .HAS_TERRAIN, .Terrain, f⟩ : Rel) ∈ planetOps d :=
        planet_tag_sub _ (List.mem_append.mpr (Or.inr (mem_linkOps_rel hf)))
      have hpres : nodePresent (applyOps (planetOps d) s) .Terrain f = true :=
        applyOps_present_est (planetOps d) hop
      exact ⟨hpres, applyOps_rels_est (planetOps d) hrel⟩
    · intro m hm hk hnot
      by_cases hex : ∃ n ∈ s.nodes, n.kind = m.kind ∧ n.key = m.key
      · rcases hex with ⟨n, hn, hk2, hy2⟩
        exact ⟨n, hn, hk ▸ hk2, hy2⟩
      · have htg := new_tag_key_mem (d := .planet d) rfl hm
          (by rw [hk]; rfl) hex
        rw [hk] at htg
        simp only [docTagRefs, List.mem_append, List.mem_map] at htg
        rcases htg with ⟨v, hv, hveq⟩ | ⟨v, hv, hveq⟩
        · have hvk : v = m.key := congrArg Prod.snd hveq
          exact absurd (hvk ▸ hv) hnot
        · have hpk : Kind.Terrain = Kind.Climate := congrArg Prod.fst hveq
          exact Kind.noConfusion hpk
    · intro m hm hk hnot
      by_cases hex : ∃ n ∈ s.nodes, n.kind = m.kind ∧ n.key = m.key
      · rcases hex with ⟨n, hn, hk2, hy2⟩
        exact ⟨n, hn, hk ▸ hk2, hy2⟩
      · have htg := new_tag_key_mem (d := .planet d) rfl hm
          (by rw [hk]; rfl) hex
        rw [hk] at htg
        simp only [docTagRefs, List.mem_append, List.mem_map] at htg
        rcases htg with ⟨v, hv, hveq⟩ | ⟨v, hv, hveq⟩
        · have hpk : Kind.Climate = Kind.Terrain := congrArg Prod.fst hveq
          exact Kind.noConfusion hpk
        · have hvk : v = m.key := congrArg Prod.snd hveq
          exact absurd (hvk ▸ hv) hnot

set_option maxRecDepth 4000 in
/-- Witness for the amended C4: the witness film's director field splits
into `"George Lucas"` and `" Rick Marshall"` (leading space kept), the
witness planet's terrain field `"desert, forests,"` splits into `"desert"`,
`" forests"` and the blank fragment `""`, and each such raw fragment is a
tag entity with its edge after the upsert — including the blank one and
the untrimmed `" tropical"` climate fragment. -/
theorem C4_comma_split_amended_witness :
    splitComma "George Lucas, Rick Marshall"
        = ["George Lucas", " Rick Marshall"] ∧
    splitComma "desert, forests," = ["desert", " forests", ""] ∧
    (nodePresent wStoreC4 .Director " Rick Marshall" = true ∧
      (⟨.Film, "films/1", .DIRECTED_BY, .Director, " Rick Marshall"⟩ : Rel)
        ∈ wStoreC4.rels) ∧
    (nodePresent wStoreP4 .Terrain "" = true ∧
      (⟨.Planet, "planets/7", .HAS_TERRAIN, .Terrain, " forests"⟩ : Rel)
        ∈ wStoreP4.rels) ∧
    nodePresent wStoreP4 .Climate " tropical" = true := by
  refine ⟨by decide, by decide, ?_, ?_, ?_⟩
  · exact (C4_comma_split_amended.2.1 wFilmC4 emptyStore wStoreC4
      (by decide)).1 " Rick Marshall" (by decide)
  · refine ⟨?_, ?_⟩
    · exact ((C4_comma_split_amended.2.2 wPlanetC4 emptyStore wStoreP4
        (by decide)).2.1 "" (by decide)).1
    · exact ((C4_comma_split_amended.2.2 wPlanetC4 emptyStore wStoreP4
        (by decide)).2.1 " forests" (by decide)).2
  · exact ((C4_comma_split_amended.2.2 wPlanetC4 emptyStore wStoreP4
      (by decide)).1 " tropical" (by decide)).1

end SWAPI
